import Mathlib

/-!
# EvoPlay core engines: shallow embedding and verification

This file embeds the two game engines of the EvoPlay repository
(`backend/games/game_2048.py` and `backend/games/game_mergefall.py`) together
with the move-log machinery of `backend/games/base.py`, and proves or refutes
the frozen specification claims about them.

Conventions of the embedding:
* Python `list[list[int]]` boards become `List (List Nat)` (2048) or
  `List (List Int)` (MergeFall, whose code marks the active cell with a
  negative sign).
* The process-global `random` module used by `Game2048._spawn_tile` is
  modelled as a stream `Rng := List (Nat × Bool)` threaded through the
  Game2048 operations: one stream element is consumed per spawn (the `Nat`
  models the `random.choice` index draw, the `Bool` the `random.random() < 0.1`
  draw).  MergeFall's private `random.Random(seed)` instance is a stream kept
  inside the MergeFall state.
* Wall-clock fields (`time` in log entries) and the CSV file mirror of the log
  are outside the embedding; the in-memory log list and step counter are
  modelled exactly.
-/

namespace EvoPlay

/-- The step-numbering discipline of `BaseGame`: the in-memory log has one
entry per counted step, numbered 1..steps in order. -/
def stepsOKList {E : Type} (stepOf : E → Nat) (log : List E) (steps : Nat) : Prop :=
  log.length = steps ∧ ∀ i (h : i < log.length), stepOf (log.get ⟨i, h⟩) = i + 1

namespace Game2048

/-- 4×4 board of tile values, row major, as in the Python `list[list[int]]`. -/
abbrev Board := List (List Nat)

def GRID_SIZE : Nat := 4

/-- `b[r][c]` (all uses in the source are in bounds; out-of-bounds reads 0). -/
def getCell (b : Board) (r c : Nat) : Nat := (b.getD r []).getD c 0

/-- `b[r][c] = v`. -/
def setCell (b : Board) (r c : Nat) (v : Nat) : Board :=
  b.set r ((b.getD r []).set c v)

/-- The merge scan of `Game2048._compress` on the zero-stripped tile list:
returns the merged tiles, the score gained, and whether a merge produced 2048
(the side effect `self.won = True`).  The `skip` flag of the Python loop is the
double-step recursion on equal adjacent tiles. -/
def compressTiles : List Nat → List Nat × Nat × Bool
  | [] => ([], 0, false)
  | [a] => ([a], 0, false)
  | a :: b :: rest =>
    if a = b then
      let r := compressTiles rest
      ((a * 2) :: r.1, r.2.1 + a * 2, r.2.2 || decide (a * 2 = 2048))
    else
      let r := compressTiles (b :: rest)
      (a :: r.1, r.2.1, r.2.2)

/-- `Game2048._compress`: slide and merge one row to the left.
Returns `(new_row, gained, made2048, changed)`. -/
def compress (row : List Nat) : List Nat × Nat × Bool × Bool :=
  let tiles := row.filter (fun v => v ≠ 0)
  let r := compressTiles tiles
  let newRow := r.1 ++ List.replicate (GRID_SIZE - r.1.length) 0
  (newRow, r.2.1, r.2.2, decide (newRow ≠ row))

def range4 : List Nat := [0, 1, 2, 3]

/-- `Game2048._rotate_to_left`. -/
def rotateToLeft (d : String) (b : Board) : Board :=
  if d = "left" then b
  else if d = "right" then b.map List.reverse
  else if d = "up" then range4.map (fun c => range4.map (fun r => getCell b r c))
  else range4.map (fun c => range4.reverse.map (fun r => getCell b r c))

/-- `Game2048._rotate_from_left`. -/
def rotateFromLeft (d : String) (b : Board) : Board :=
  if d = "left" then b
  else if d = "right" then b.map List.reverse
  else if d = "up" then range4.map (fun r => range4.map (fun c => getCell b c r))
  else range4.map (fun r => range4.map (fun c => getCell b c (GRID_SIZE - 1 - r)))

/-- One in-memory log entry of `BaseGame._record_log` (the wall-clock `time`
field is not modelled). -/
structure LogEntry where
  step : Nat
  action : String
  score : Nat
  game_over : Bool
  board : Board
deriving Repr, DecidableEq

/-- The mutable fields of a `Game2048` instance, including the log fields
managed by `BaseGame`. -/
structure State where
  board : Board
  score : Nat
  game_over : Bool
  won : Bool
  log : List LogEntry
  steps : Nat
deriving Repr, DecidableEq

/-- Row-wise pass of `Game2048._move`: compress every row, collecting the new
rows, the total gain, the `won`-producing flag and whether any row changed. -/
def compressBoard : List (List Nat) → List (List Nat) × Nat × Bool × Bool
  | [] => ([], 0, false, false)
  | row :: rest =>
    let c := compress row
    let r := compressBoard rest
    (c.1 :: r.1, c.2.1 + r.2.1, c.2.2.1 || r.2.2.1, c.2.2.2 || r.2.2.2)

/-- `Game2048._move`: apply a move; the board and score change only when some
row changed, but the `won` side effect of `_compress` happens regardless. -/
def move (d : String) (s : State) : State × Bool :=
  let rotated := rotateToLeft d s.board
  let r := compressBoard rotated
  let s1 := {s with won := s.won || r.2.2.1}
  if r.2.2.2 then
    ({s1 with board := rotateFromLeft d r.1, score := s1.score + r.2.1}, true)
  else (s1, false)

/-- Row loop of `Game2048._can_move`: stops at the first changed row (so later
rows are not simulated), accumulating the `won` side effect of the rows it did
compress.  Returns `(changed, wonDelta)`. -/
def canMoveRows : List (List Nat) → Bool × Bool
  | [] => (false, false)
  | row :: rest =>
    let c := compress row
    if c.2.2.2 then (true, c.2.2.1)
    else
      let r := canMoveRows rest
      (r.1, c.2.2.1 || r.2)

/-- `Game2048._can_move` (boolean result together with the `won` side effect). -/
def canMove (d : String) (s : State) : Bool × Bool :=
  canMoveRows (rotateToLeft d s.board)

def directions : List String := ["up", "down", "left", "right"]

/-- Direction loop of `Game2048.valid_actions` (no short-circuit: every
direction is checked, each `_can_move` call ORing its `won` side effect in). -/
def validActionsAux : List String → State → List String × State
  | [], s => ([], s)
  | d :: ds, s =>
    let cw := canMove d s
    let s1 := {s with won := s.won || cw.2}
    let r := validActionsAux ds s1
    (if cw.1 then d :: r.1 else r.1, r.2)

/-- `Game2048.valid_actions`: empty when over, otherwise the movable
directions; may set `won` as a side effect of the simulations. -/
def validActions (s : State) : List String × State :=
  if s.game_over then ([], s) else validActionsAux directions s

/-- `Game2048._has_moves`: `any(...)` short-circuits at the first movable
direction, so the `won` side effects of later directions do not happen. -/
def hasMovesAux : List String → State → Bool × State
  | [], s => (false, s)
  | d :: ds, s =>
    let cw := canMove d s
    let s1 := {s with won := s.won || cw.2}
    if cw.1 then (true, s1) else hasMovesAux ds s1

def hasMoves (s : State) : Bool × State := hasMovesAux directions s

/-- The state snapshot dict returned by `Game2048.get_state` / `apply_action`
(the constant `game` field is not modelled). -/
structure Snap where
  board : Board
  score : Nat
  game_over : Bool
  won : Bool
  valid_actions : List String
  error : Option String
deriving Repr, DecidableEq

/-- `Game2048.get_state`: the dict literal reads `won` *before* the
`valid_actions()` entry runs (Python evaluates dict entries in order), so the
snapshot shows the pre-call `won` while the returned state carries the
side effect. -/
def getState (s : State) : Snap × State :=
  ({board := s.board, score := s.score, game_over := s.game_over, won := s.won,
    valid_actions := (validActions s).1, error := none}, (validActions s).2)

/-- Game2048 draws from the process-global `random` module; we model that
global generator as a stream of (choice-index, is-four) pairs, threaded
explicitly through every Game2048 operation that may spawn. -/
abbrev Rng := List (Nat × Bool)

/-- The row-major empty-cell list of `Game2048._spawn_tile`. -/
def emptyCells (b : Board) : List (Nat × Nat) :=
  (range4.map (fun r =>
    range4.filterMap (fun c => if getCell b r c = 0 then some (r, c) else none))).flatten

/-- The board that `_spawn_tile` produces (pure part of the spawn). -/
def spawnBoard (b : Board) (k : Nat) (four : Bool) : Board :=
  let empty := emptyCells b
  let (r, c) := empty.getD (k % empty.length) (0, 0)
  setCell b r c (if four then 4 else 2)

/-- `Game2048._spawn_tile`: pick a uniformly random empty cell (modelled as
index draw mod the list length) and place 4 with probability 0.1 else 2
(modelled as the Bool draw); consumes one element of the global stream. -/
def spawnTile (s : State) (rng : Rng) : State × Rng :=
  let empty := emptyCells s.board
  if empty.isEmpty then (s, rng)
  else
    let d := rng.headD (0, false)
    ({s with board := spawnBoard s.board d.1 d.2}, rng.tail)

def initBoard : Board := List.replicate 4 (List.replicate 4 0)

/-- `BaseGame._record_log`: append one entry with step index `steps + 1`. -/
def recordLog (action : String) (snap : Snap) (s : State) : State :=
  {s with steps := s.steps + 1,
          log := s.log ++ [{step := s.steps + 1, action := action,
                            score := snap.score, game_over := snap.game_over,
                            board := snap.board}]}

/-- `Game2048.reset`: fresh board, two spawns, log cleared
(`BaseGame._reset_log`), returning `get_state()` (whose `valid_actions()` call
may set `won`). -/
def reset (_s : State) (rng : Rng) : Snap × State × Rng :=
  let s0 : State := {board := initBoard, score := 0, game_over := false,
                     won := false, log := [], steps := 0}
  let p1 := spawnTile s0 rng
  let p2 := spawnTile p1.1 p1.2
  let gs := getState p2.1
  (gs.1, gs.2, p2.2)

/-- `action.strip().lower()` (as both engines run at the top of
`apply_action`): strip whitespace from both ends, lowercase every character.
Implemented over the character list so that it evaluates inside the kernel. -/
def normalize (a : String) : String :=
  ⟨((a.data.dropWhile Char.isWhitespace).reverse.dropWhile
      Char.isWhitespace).reverse.map Char.toLower⟩

/-- `Game2048.apply_action`, faithful to the source's sequencing: the
normalization, the game-over check, the `valid_actions()` membership check
(with its `won` side effect), `_move`, the conditional spawn and
`_has_moves()` game-over update, the final `get_state()`, and `_record_log`
only on the successful path. -/
def applyAction (s : State) (action : String) (rng : Rng) : Snap × State × Rng :=
  let a := normalize action
  if s.game_over then
    let gs := getState s
    ({gs.1 with error := some "Game is already over."}, gs.2, rng)
  else
    let p := validActions s
    if a ∈ p.1 then
      let m := move a p.2
      let q :=
        if m.2 then
          let sp := spawnTile m.1 rng
          let hmv := hasMoves sp.1
          ({hmv.2 with game_over := if hmv.1 then hmv.2.game_over else true}, sp.2)
        else (m.1, rng)
      let gs := getState q.1
      (gs.1, recordLog a gs.1 gs.2, q.2)
    else
      let gs := getState p.2
      ({gs.1 with error := some ("Invalid action: " ++ a)}, gs.2, rng)

/-- The combined `won` side effect of one full `valid_actions()` scan
(a function of the board alone). -/
def scanWon (b : Board) : Bool :=
  (directions.map (fun d => (canMoveRows (rotateToLeft d b)).2)).any id

/-- Whether some direction would change the board (the boolean content of
`_has_moves`, independent of short-circuiting). -/
def hasAnyMove (b : Board) : Bool :=
  directions.any (fun d => (canMoveRows (rotateToLeft d b)).1)

/-- The board-only invariant that every observable Game2048 state satisfies:
while the game is running, the `won` flag already absorbs the side effect a
`valid_actions()` scan would produce, and some direction can still move. -/
def Inv (s : State) : Prop :=
  (s.game_over = false → scanWon s.board = true → s.won = true) ∧
  (s.game_over = false → hasAnyMove s.board = true)

/-- States reachable through the public Game2048 interface: reset from
anywhere, then any interleaving of `apply_action` (arbitrary action strings
and PRNG draws) and state queries. -/
inductive Reachable : State → Prop where
  | reset (s : State) (rng : Rng) : Reachable (reset s rng).2.1
  | step {s : State} (a : String) (rng : Rng) :
      Reachable s → Reachable (applyAction s a rng).2.1
  | query {s : State} : Reachable s → Reachable (getState s).2

/-- What `reset` guarantees of the two-spawn board: exactly two non-zero
cells, values in {2,4}, 4×4 shape, and at least one movable direction. -/
def resetBoardOK (b : Board) : Prop :=
  b.flatten.countP (fun v => v ≠ 0) = 2 ∧ (∀ v ∈ b.flatten, v = 0 ∨ v = 2 ∨ v = 4) ∧
  b.length = 4 ∧ (∀ row ∈ b, row.length = 4) ∧ hasAnyMove b = true

instance : DecidablePred resetBoardOK := fun b => by
  unfold resetBoardOK; infer_instance

/-- The board a `reset` call produces, as a function of the global stream. -/
def resetBoardOf (rng : Rng) : Board :=
  spawnBoard (spawnBoard initBoard (rng.headD (0, false)).1 (rng.headD (0, false)).2)
             (rng.tail.headD (0, false)).1 (rng.tail.headD (0, false)).2

/-- A throwaway state handed to `reset` in concrete runs (`reset` ignores its
argument and rebuilds the session from scratch). -/
def blankState : State :=
  {board := [], score := 0, game_over := false, won := false, log := [], steps := 0}

/-- The step-numbering invariant for a Game2048 session. -/
def LogInv (s : State) : Prop := stepsOKList (fun e => e.step) s.log s.steps

end Game2048

namespace MergeFall

/-!
## MergeFall (`backend/games/game_mergefall.py`)

The Python board is a row-major `list[list[int]]` of `height = visible+1`
rows; every algorithm in the file (drop, gravity, overflow check) walks it
column by column, so the embedding stores the board as its list of columns:
`cols.getD c [] |>.getD r 0` is the Python `board[r][c]`, row 0 being the
hidden overflow row.  Negative values mark the active cell, as in the source.

The only non-translatable fragment is the float weighting inside
`_sample_next_tile` (`math.exp` weights, temperature, damping): the embedding
keeps the candidate computation exact (powers of two from 2 up to the current
maximum) and abstracts the weighted roulette into an index choice driven by
the same per-session PRNG draw; every claim below depends only on the support
of the distribution and on which generator is consumed, not on the weights.
-/

/-- One in-memory log entry of `BaseGame._record_log` for a MergeFall session
(`board` is the visible board snapshot; wall-clock `time` not modelled). -/
structure LogEntry where
  step : Nat
  action : String
  score : Nat
  game_over : Bool
  board : List (List Nat)
deriving Repr, DecidableEq

/-- The mutable fields of a `MergeFall` instance.  `height` includes the
hidden overflow row (Python `self.height = visible_height + 1`); `rng` is the
session-private `random.Random(seed)` stream consumed by `_sample_next_tile`. -/
structure State where
  width : Nat
  height : Nat
  cols : List (List Int)
  score : Nat
  game_over : Bool
  next_tile : Nat
  active_pos : Option (Nat × Nat)
  rng : List Nat
  log : List LogEntry
  steps : Nat
deriving Repr, DecidableEq

/-- `board[r][c]` on the column-major store. -/
def cell (cols : List (List Int)) (r c : Nat) : Int :=
  (cols.getD c []).getD r 0

/-- `board[r][c] = v`. -/
def setCell (cols : List (List Int)) (r c : Nat) (v : Int) : List (List Int) :=
  cols.set c ((cols.getD c []).set r v)

/-- Python `str.isdigit()` on the character list (non-empty, all digits). -/
def isDigitStr (l : List Char) : Bool := !l.isEmpty && l.all Char.isDigit

/-- Python `int()` on a digit string. -/
def digitsToNat (l : List Char) : Nat :=
  l.foldl (fun n c => 10 * n + (c.toNat - 48)) 0

/-- Python `str.strip()`. -/
def stripChars (l : List Char) : List Char :=
  ((l.dropWhile Char.isWhitespace).reverse.dropWhile Char.isWhitespace).reverse

/-- Python `tail.split(sep)` for a single-character separator (empty pieces
kept, as in Python). -/
def splitOnChar (c : Char) : List Char → List (List Char)
  | [] => [[]]
  | x :: xs =>
    let r := splitOnChar c xs
    if x = c then [] :: r
    else (x :: r.headD []) :: r.tail

/-- The separator loop of `_parse_action_to_col`: for each separator present
in the tail, split, drop empty pieces, and accept the first piece when it is a
digit string; otherwise try the next separator. -/
def trySeps (tail : List Char) : List Char → Option Nat
  | [] => none
  | sep :: rest =>
    if tail.contains sep then
      match (splitOnChar sep tail).filter (fun p => !p.isEmpty) with
      | p :: _ =>
        if isDigitStr p then some (digitsToNat p) else trySeps tail rest
      | [] => trySeps tail rest
    else trySeps tail rest

/-- `MergeFall._parse_action_to_col`. -/
def parseActionToCol (action : String) : Option Nat :=
  let l := action.data
  if isDigitStr l then some (digitsToNat l)
  else if l.take 4 = "drop".data then
    let tail := stripChars (l.drop 4)
    if tail.isEmpty then none
    else
      match trySeps tail [' ', ':', '=', '\t'] with
      | some n => some n
      | none => if isDigitStr tail then some (digitsToNat tail) else none
  else none

/-- `MergeFall.valid_actions`: every column while playing, empty when over. -/
def validActions (s : State) : List String :=
  if s.game_over then [] else (List.range s.width).map (fun c => "drop " ++ toString c)

/-- The visible board of `get_state`: rows 1..height-1, absolute values. -/
def visibleBoard (s : State) : List (List Nat) :=
  (List.range (s.height - 1)).map (fun i =>
    (List.range s.width).map (fun c => (cell s.cols (i + 1) c).natAbs))

/-- The snapshot dict of `MergeFall.get_state` (constant `game` field not
modelled). -/
structure Snap where
  board : List (List Nat)
  width : Nat
  height : Nat
  score : Nat
  next_tile : Nat
  game_over : Bool
  valid_actions : List String
  error : Option String
deriving Repr, DecidableEq

/-- `MergeFall.get_state` (pure: MergeFall's `valid_actions` has no side
effect, unlike Game2048's). -/
def getState (s : State) : Snap :=
  {board := visibleBoard s, width := s.width, height := s.height - 1,
   score := s.score, next_tile := s.next_tile, game_over := s.game_over,
   valid_actions := validActions s, error := none}

/-- `MergeFall._drop_active_into_column`: scan rows bottom-up for the first
empty cell, write `-value` there; `none` models the `RuntimeError` raise. -/
def dropActive (s : State) (col : Nat) (value : Nat) : Option (Nat × State) :=
  match (List.range s.height).reverse.find? (fun r => cell s.cols r col = 0) with
  | none => none
  | some r => some (r, {s with cols := setCell s.cols r col (-(value : Int))})

/-- Gravity on one column: non-empty cells compact downward preserving order. -/
def gravityCol (height : Nat) (col : List Int) : List Int :=
  let vals := col.filter (fun v => v ≠ 0)
  List.replicate (height - vals.length) 0 ++ vals

/-- `MergeFall._apply_gravity`: compact every column, then track the active
cell: the Python loop's last assignment is the topmost negative cell of the
rightmost column holding one. -/
def applyGravity (s : State) : State :=
  let newCols := s.cols.map (gravityCol s.height)
  let active := (List.range s.width).foldl (fun acc c =>
    match (List.range s.height).find? (fun r => cell newCols r c < 0) with
    | some r => some (r, c)
    | none => acc) none
  {s with cols := newCols, active_pos := active}

/-- `MergeFall._same_value_neighbors`: in-bounds orthogonal neighbors whose
absolute value equals the target. -/
def sameValueNeighbors (s : State) (r c : Nat) (target : Nat) : List (Nat × Nat) :=
  [((r : Int) - 1, (c : Int)), ((r : Int) + 1, (c : Int)),
   ((r : Int), (c : Int) - 1), ((r : Int), (c : Int) + 1)].filterMap
    (fun p =>
      if 0 ≤ p.1 ∧ p.1 < (s.height : Int) ∧ 0 ≤ p.2 ∧ p.2 < (s.width : Int) ∧
          (cell s.cols p.1.toNat p.2.toNat).natAbs = target
      then some (p.1.toNat, p.2.toNat) else none)

/-- Python `int.bit_length`, via the greatest exponent with `2^k ≤ n`. -/
def bitLength (n : Nat) : Nat :=
  if n = 0 then 0 else Nat.findGreatest (fun k => 2 ^ k ≤ n) n + 1

/-- `MergeFall._ceil_log2`: 0 for `n ≤ 1`, else `(n-1).bit_length()`. -/
def ceilLog2 (n : Nat) : Nat := if n ≤ 1 then 0 else bitLength (n - 1)

/-- `MergeFall._current_max_tile`: maximum absolute cell value, at least 2. -/
def currentMaxTile (s : State) : Nat :=
  s.cols.foldl (fun m col => col.foldl (fun m v => max m v.natAbs) m) 2

/-- `MergeFall._floor_pow2`-style floor exponent: greatest `e` with `2^e ≤ M`
(= `int(math.log2 M)` for the power-of-two tile values). -/
def floorLog2 (M : Nat) : Nat := Nat.findGreatest (fun e => 2 ^ e ≤ M) M

/-- `MergeFall._sample_next_tile`, candidates exact, float roulette abstracted:
candidates are `2^e` for `e = 1..floor(log2 M)` and the session PRNG draw
picks the index (see the namespace docstring). -/
def sampleNextTile (M : Nat) (draw : Nat) : Nat :=
  if M < 2 then 2
  else
    let candidates := (List.range (floorLog2 M)).map (fun e => 2 ^ (e + 1))
    if candidates.isEmpty then 2
    else candidates.getD (draw % candidates.length) 2

/-- Sampling against the session state: consumes one draw of the private
per-session stream (except on the unreachable `M < 2` early return). -/
def sampleNextTileState (s : State) : Nat × State :=
  let M := currentMaxTile s
  if M < 2 then (2, s)
  else (sampleNextTile M (s.rng.headD 0), {s with rng := s.rng.tail})

/-- `MergeFall._finalize_active_and_get_value`. -/
def finalizeActiveAndGetValue (s : State) : Nat × State :=
  match s.active_pos with
  | none => (0, s)
  | some (r, c) =>
    let val := (cell s.cols r c).natAbs
    (val, {s with cols := setCell s.cols r c (val : Int), active_pos := none})

/-- Number of non-empty cells (termination measure of the absorption loop). -/
def countNonzero (cols : List (List Int)) : Nat :=
  (cols.map (fun col => col.countP (fun v => v ≠ 0))).sum

/-- The `while True` loop of `_resolve_active_drop`, with explicit fuel (the
loop strictly decreases `countNonzero`, so `countNonzero + 1` fuel always
suffices; see `resolveLoopFuel_exact`). Returns the state and the combo. -/
def resolveLoopFuel : Nat → State → Nat → State × Nat
  | 0, s, combo => (s, combo)
  | fuel + 1, s, combo =>
    let s1 := applyGravity s
    match s1.active_pos with
    | none => (s1, combo)
    | some rc =>
      let v := (cell s1.cols rc.1 rc.2).natAbs
      if v = 0 then (s1, combo)
      else
        let ns := sameValueNeighbors s1 rc.1 rc.2 v
        if ns.isEmpty then (s1, combo)
        else
          let cleared := ns.foldl (fun cs p => setCell cs p.1 p.2 0) s1.cols
          let newV := v * 2 ^ ceilLog2 (1 + ns.length)
          let s2 := {s1 with cols := setCell cleared rc.1 rc.2 (-(newV : Int))}
          resolveLoopFuel fuel s2 (combo + 1)

/-- `MergeFall._resolve_active_drop`: returns the resolved state, the score
gained, the combo count and the final active value. -/
def resolveActiveDrop (s : State) : State × Nat × Nat × Nat :=
  match s.active_pos with
  | none => (s, 0, 0, 0)
  | some _ =>
    let r := resolveLoopFuel (countNonzero s.cols + 1) s 0
    let fv := finalizeActiveAndGetValue r.1
    (fv.2, if r.2 = 0 then 0 else fv.1 * r.2, r.2, fv.1)

/-- `BaseGame._record_log` for MergeFall. -/
def recordLog (action : String) (snap : Snap) (s : State) : State :=
  {s with steps := s.steps + 1,
          log := s.log ++ [{step := s.steps + 1, action := action,
                            score := snap.score, game_over := snap.game_over,
                            board := snap.board}]}

/-- The overflow test of `apply_action`: any non-zero cell in hidden row 0. -/
def overflowRow (s : State) : Bool :=
  (List.range s.width).any (fun c => cell s.cols 0 c ≠ 0)

/-- `MergeFall.apply_action`; `none` models an uncaught exception (the
`RuntimeError` of `_drop_active_into_column`), proved unreachable in C7. -/
def applyAction (s : State) (action : String) : Option (Snap × State) :=
  let a := Game2048.normalize action
  if s.game_over then
    some ({getState s with error := some "Game is already over."}, s)
  else
    match parseActionToCol a with
    | none => some ({getState s with error := some ("Invalid action: " ++ a)}, s)
    | some col =>
      if col < s.width then
        if cell s.cols 0 col ≠ 0 then
          let s1 := {s with game_over := true}
          some ({getState s1 with
                  error := some ("Column " ++ toString col ++ " has no room. Game over.")},
                s1)
        else
          match dropActive s col s.next_tile with
          | none => none
          | some rs =>
            let s3 := {rs.2 with active_pos := some (rs.1, col)}
            let res := resolveActiveDrop s3
            let s4 := {res.1 with score := res.1.score + res.2.1}
            let s5 := if overflowRow s4 then {s4 with game_over := true} else s4
            let s6 := if s5.game_over then s5
                      else
                        let t := sampleNextTileState s5
                        {t.2 with next_tile := t.1}
            let snap := getState s6
            some (snap, recordLog a snap s6)
      else some ({getState s with error := some ("Invalid action: " ++ a)}, s)

/-- `MergeFall.reset`: all-empty board, score 0, playing, fresh log, sample
the first `next_tile` (2 on the empty board). -/
def reset (s : State) : Snap × State :=
  let s0 : State := {width := s.width, height := s.height,
                     cols := List.replicate s.width (List.replicate s.height 0),
                     score := 0, game_over := false, next_tile := 2,
                     active_pos := none, rng := s.rng, log := [], steps := 0}
  let t := sampleNextTileState s0
  let s1 := {t.2 with next_tile := t.1}
  (getState s1, s1)

/-- Fixture: 5×6 board whose column 2 holds the stack `[2,2]`, next tile 2
(the worked example of the spec). -/
def demoStack : State :=
  { width := 5, height := 7,
    cols := [List.replicate 7 0, List.replicate 7 0, [0, 0, 0, 0, 0, 2, 2],
             List.replicate 7 0, List.replicate 7 0],
    score := 0, game_over := false, next_tile := 2, active_pos := none,
    rng := [0, 0, 0], log := [], steps := 0 }

/-- Fixture: column 0 entirely full, overflow row included. -/
def demoFullColumn : State :=
  { width := 5, height := 7,
    cols := [[2, 4, 8, 16, 32, 64, 128], List.replicate 7 0, List.replicate 7 0,
             List.replicate 7 0, List.replicate 7 0],
    score := 10, game_over := false, next_tile := 2, active_pos := none,
    rng := [0, 0, 0], log := [], steps := 0 }

/-- Fixture: the visible part of column 1 is completely full with a doubling
stack, so the drop lands in the overflow row but cascading merges empty it. -/
def demoSaved : State :=
  { width := 5, height := 7,
    cols := [List.replicate 7 0, [0, 2, 4, 8, 16, 32, 64], List.replicate 7 0,
             List.replicate 7 0, List.replicate 7 0],
    score := 0, game_over := false, next_tile := 2, active_pos := none,
    rng := [0, 0, 0], log := [], steps := 0 }

/-- The state `demoStack` reaches right after the tile is dropped (before
resolution). -/
def demoDropped : State :=
  {demoStack with cols := setCell demoStack.cols 4 2 (-2),
                  active_pos := some (4, 2)}

/-- MergeFall states reachable through the public interface. -/
inductive Reachable : State → Prop where
  | reset (s : State) : Reachable (reset s).2
  | step {s : State} (a : String) {p : Snap × State} :
      Reachable s → applyAction s a = some p → Reachable p.2

/-- The step-numbering invariant for a MergeFall session. -/
def LogInv (s : State) : Prop := stepsOKList (fun e => e.step) s.log s.steps

end MergeFall

namespace Sessions

/-- Two Game2048 sessions, two MergeFall sessions, and the process-global
`random` module they may share: exactly the situation of the backend's
session registry, where each `Game2048()` instance calls the global `random`
while each `MergeFall()` owns a `random.Random(seed)`. -/
structure World where
  g1 : Game2048.State
  g2 : Game2048.State
  m1 : MergeFall.State
  m2 : MergeFall.State
  grng : Game2048.Rng
deriving DecidableEq

def resetG1 (w : World) : World :=
  let r := Game2048.reset w.g1 w.grng
  {w with g1 := r.2.1, grng := r.2.2}

def resetG2 (w : World) : World :=
  let r := Game2048.reset w.g2 w.grng
  {w with g2 := r.2.1, grng := r.2.2}

def applyG1 (a : String) (w : World) : World :=
  let r := Game2048.applyAction w.g1 a w.grng
  {w with g1 := r.2.1, grng := r.2.2}

def applyG2 (a : String) (w : World) : World :=
  let r := Game2048.applyAction w.g2 a w.grng
  {w with g2 := r.2.1, grng := r.2.2}

def applyM1 (a : String) (w : World) : World :=
  match MergeFall.applyAction w.m1 a with
  | some p => {w with m1 := p.2}
  | none => w

def applyM2 (a : String) (w : World) : World :=
  match MergeFall.applyAction w.m2 a with
  | some p => {w with m2 := p.2}
  | none => w

def resetM1 (w : World) : World := {w with m1 := (MergeFall.reset w.m1).2}

/-- A fixed two-of-each world with a short global stream. -/
def w0 : World :=
  {g1 := Game2048.blankState, g2 := Game2048.blankState,
   m1 := MergeFall.demoStack, m2 := MergeFall.demoStack,
   grng := [(0, false), (0, true)]}

end Sessions

lemma stepsOKList_nil {E : Type} (f : E → Nat) : stepsOKList f [] 0 :=
  ⟨rfl, fun i h => absurd h (by simp)⟩

lemma stepsOKList_append {E : Type} (f : E → Nat) {log : List E} {steps : Nat}
    (h : stepsOKList f log steps) {e : E} (he : f e = steps + 1) :
    stepsOKList f (log ++ [e]) (steps + 1) := by
  obtain ⟨hlen, hidx⟩ := h
  refine ⟨by simp [hlen], ?_⟩
  intro i hi
  simp only [List.length_append, List.length_cons, List.length_nil] at hi
  by_cases hlt : i < log.length
  · have hg : (log ++ [e]).get ⟨i, by simp; omega⟩ = log.get ⟨i, hlt⟩ := by
      simp only [List.get_eq_getElem]
      exact List.getElem_append_left hlt
    rw [hg]
    exact hidx i hlt
  · have hieq : i = log.length := by omega
    subst hieq
    have hg : (log ++ [e]).get ⟨log.length, by simp⟩ = e := by
      simp [List.get_eq_getElem]
    rw [hg, he, hlen]

namespace Game2048

lemma canMove_won_update (d : String) (s : State) (w : Bool) :
    canMove d {s with won := w} = canMove d s := rfl

lemma validActionsAux_eq (ds : List String) (s : State) :
    validActionsAux ds s =
      (ds.filter (fun d => (canMove d s).1),
       {s with won := s.won || (ds.map (fun d => (canMove d s).2)).any id}) := by
  induction ds generalizing s with
  | nil => simp [validActionsAux]
  | cons d ds ih =>
    rcases hcm : canMove d s with ⟨ch, w⟩
    simp only [validActionsAux, hcm, ih, canMove_won_update, List.filter_cons,
      List.map_cons, List.any_cons, hcm]
    refine Prod.ext ?_ ?_
    · simp [hcm]
    · simp [Bool.or_assoc, id]

lemma validActions_of_over {s : State} (h : s.game_over = true) :
    validActions s = ([], s) := by
  simp [validActions, h]

lemma validActions_of_playing {s : State} (h : s.game_over = false) :
    validActions s =
      (directions.filter (fun d => (canMove d s).1),
       {s with won := s.won || scanWon s.board}) := by
  simp [validActions, h, validActionsAux_eq, scanWon, canMove]

lemma hasMovesAux_fst (ds : List String) (s : State) :
    (hasMovesAux ds s).1 = ds.any (fun d => (canMove d s).1) := by
  induction ds generalizing s with
  | nil => simp [hasMovesAux]
  | cons d ds ih =>
    rcases hcm : canMove d s with ⟨ch, w⟩
    by_cases hch : ch = true
    · simp [hasMovesAux, hcm, hch]
    · simp only [Bool.not_eq_true] at hch
      simp [hasMovesAux, hcm, hch, ih, canMove_won_update]

lemma hasMovesAux_snd (ds : List String) (s : State) :
    ∃ w, (hasMovesAux ds s).2 = {s with won := w} := by
  induction ds generalizing s with
  | nil => exact ⟨s.won, rfl⟩
  | cons d ds ih =>
    rcases hcm : canMove d s with ⟨ch, w⟩
    by_cases hch : ch = true
    · exact ⟨s.won || w, by simp [hasMovesAux, hcm, hch]⟩
    · simp only [Bool.not_eq_true] at hch
      obtain ⟨w', hw'⟩ := ih {s with won := s.won || w}
      exact ⟨w', by simp [hasMovesAux, hcm, hch, hw']⟩

lemma hasMoves_fst (s : State) :
    (hasMoves s).1 = hasAnyMove s.board := by
  simp [hasMoves, hasMovesAux_fst, hasAnyMove, canMove]

@[simp] lemma recordLog_board (a : String) (snap : Snap) (s : State) :
    (recordLog a snap s).board = s.board := rfl
@[simp] lemma recordLog_score (a : String) (snap : Snap) (s : State) :
    (recordLog a snap s).score = s.score := rfl
@[simp] lemma recordLog_game_over (a : String) (snap : Snap) (s : State) :
    (recordLog a snap s).game_over = s.game_over := rfl
@[simp] lemma recordLog_won (a : String) (snap : Snap) (s : State) :
    (recordLog a snap s).won = s.won := rfl

lemma getState_of_over {s : State} (h : s.game_over = true) :
    getState s = ({board := s.board, score := s.score, game_over := s.game_over,
                   won := s.won, valid_actions := [], error := none}, s) := by
  simp [getState, validActions_of_over h]

lemma getState_of_playing {s : State} (h : s.game_over = false) :
    getState s = ({board := s.board, score := s.score, game_over := s.game_over,
                   won := s.won,
                   valid_actions := directions.filter (fun d => (canMove d s).1),
                   error := none},
                  {s with won := s.won || scanWon s.board}) := by
  simp [getState, validActions_of_playing h]

lemma won_update_eta (s : State) (w : Bool) (h : s.won = w) :
    {s with won := w} = s := by
  cases s
  subst h
  rfl

lemma getState_snd_of_inv {s : State} (h : Inv s) : (getState s).2 = s := by
  rcases hgo : s.game_over with _ | _
  · rw [getState_of_playing hgo]
    rcases hsw : scanWon s.board with _ | _
    · simp [won_update_eta]
    · have hw := h.1 hgo hsw
      simp only [hsw, Bool.or_true]
      exact won_update_eta s true hw
  · rw [getState_of_over hgo]

lemma validActions_snd_of_inv {s : State} (h : Inv s) : (validActions s).2 = s := by
  rcases hgo : s.game_over with _ | _
  · rw [validActions_of_playing hgo]
    rcases hsw : scanWon s.board with _ | _
    · simp [won_update_eta]
    · have hw := h.1 hgo hsw
      simp only [hsw, Bool.or_true]
      exact won_update_eta s true hw
  · rw [validActions_of_over hgo]

lemma spawnTile_shape (s : State) (rng : Rng) :
    ∃ b, (spawnTile s rng).1 = {s with board := b} := by
  unfold spawnTile
  rcases h : (emptyCells s.board).isEmpty with _ | _
  · exact ⟨spawnBoard s.board (rng.headD (0, false)).1 (rng.headD (0, false)).2,
      by simp [h]⟩
  · exact ⟨s.board, by simp [h]⟩

lemma move_shape (d : String) (s : State) :
    ∃ b sc w, (move d s).1 = {s with board := b, score := sc, won := w} ∧
      ((move d s).2 = false → b = s.board ∧ sc = s.score) := by
  unfold move
  rcases hcb : compressBoard (rotateToLeft d s.board) with ⟨nb, g, w2048, ch⟩
  rcases ch with _ | _
  · exact ⟨s.board, s.score, s.won || w2048, by simp [hcb], by simp [hcb]⟩
  · exact ⟨rotateFromLeft d nb, s.score + g, s.won || w2048, by simp [hcb],
      by simp [hcb]⟩

lemma hasMoves_snd (s : State) : ∃ w, (hasMoves s).2 = {s with won := w} :=
  hasMovesAux_snd directions s

set_option maxHeartbeats 4000000 in
lemma emptyCells_spawn_one_length : ∀ (i : Fin 16) (f : Bool),
    (emptyCells (spawnBoard initBoard i.val f)).length = 15 := by decide

set_option maxHeartbeats 4000000 in
lemma spawn_two_ok : ∀ (i : Fin 16) (f1 : Bool) (j : Fin 15) (f2 : Bool),
    resetBoardOK (spawnBoard (spawnBoard initBoard i.val f1) j.val f2) := by decide

lemma spawnBoard_mod (b : Board) (k : Nat) (f : Bool) :
    spawnBoard b (k % (emptyCells b).length) f = spawnBoard b k f := by
  simp only [spawnBoard]
  rw [Nat.mod_mod_of_dvd _ dvd_rfl]

lemma resetBoard_facts (k1 k2 : Nat) (f1 f2 : Bool) :
    (emptyCells (spawnBoard initBoard k1 f1)).length = 15 ∧
    resetBoardOK (spawnBoard (spawnBoard initBoard k1 f1) k2 f2) := by
  have h16 : (emptyCells initBoard).length = 16 := rfl
  have hb1 : spawnBoard initBoard (k1 % 16) f1 = spawnBoard initBoard k1 f1 := by
    have := spawnBoard_mod initBoard k1 f1
    rwa [h16] at this
  have hi : k1 % 16 < 16 := Nat.mod_lt _ (by norm_num)
  have h15 : (emptyCells (spawnBoard initBoard k1 f1)).length = 15 := by
    rw [← hb1]
    exact emptyCells_spawn_one_length ⟨k1 % 16, hi⟩ f1
  refine ⟨h15, ?_⟩
  have hb2 : spawnBoard (spawnBoard initBoard k1 f1) (k2 % 15) f2 =
      spawnBoard (spawnBoard initBoard k1 f1) k2 f2 := by
    have := spawnBoard_mod (spawnBoard initBoard k1 f1) k2 f2
    rwa [h15] at this
  have hj : k2 % 15 < 15 := Nat.mod_lt _ (by norm_num)
  have := spawn_two_ok ⟨k1 % 16, hi⟩ f1 ⟨k2 % 15, hj⟩ f2
  rw [hb1, hb2] at this
  exact this

lemma reset_eq (s : State) (rng : Rng) :
    reset s rng =
      ({board := resetBoardOf rng, score := 0, game_over := false, won := false,
        valid_actions := directions.filter
          (fun d => (canMoveRows (rotateToLeft d (resetBoardOf rng))).1),
        error := none},
       {board := resetBoardOf rng, score := 0, game_over := false,
        won := scanWon (resetBoardOf rng), log := [], steps := 0},
       rng.tail.tail) := by
  rcases h1 : rng.headD (0, false) with ⟨k1, f1⟩
  rcases h2 : rng.tail.headD (0, false) with ⟨k2, f2⟩
  obtain ⟨h15, -⟩ := resetBoard_facts k1 k2 f1 f2
  have hne : (emptyCells (spawnBoard initBoard k1 f1)).isEmpty = false := by
    rcases hl : emptyCells (spawnBoard initBoard k1 f1) with _ | ⟨x, xs⟩
    · rw [hl] at h15; simp at h15
    · rfl
  have hne0 : (emptyCells initBoard).isEmpty = false := rfl
  unfold reset spawnTile
  simp only [hne0, hne, h1, h2, Bool.false_eq_true, if_false, resetBoardOf]
  rw [getState_of_playing rfl]
  dsimp only
  simp only [Bool.false_or]
  rfl

lemma Inv_of_over {s : State} (h : s.game_over = true) : Inv s := by
  constructor
  · intro hf
    rw [h] at hf
    simp at hf
  · intro hf
    rw [h] at hf
    simp at hf

lemma Inv_getState_post (t : State)
    (hmove : t.game_over = false → hasAnyMove t.board = true) :
    Inv (getState t).2 := by
  rcases hgo : t.game_over with _ | _
  · rw [getState_of_playing hgo]
    exact ⟨fun _ hsw => by simp [hsw], fun _ => hmove hgo⟩
  · rw [getState_of_over hgo]
    exact Inv_of_over hgo

lemma Inv_recordLog {t : State} (h : Inv t) (a : String) (sn : Snap) :
    Inv (recordLog a sn t) := by
  unfold Inv at h ⊢
  simpa using h

lemma Inv_reset (s : State) (rng : Rng) : Inv (reset s rng).2.1 := by
  rw [reset_eq]
  refine ⟨fun _ hsw => by simpa using hsw, fun _ => ?_⟩
  have := (resetBoard_facts (rng.headD (0, false)).1 (rng.tail.headD (0, false)).1
    (rng.headD (0, false)).2 (rng.tail.headD (0, false)).2).2
  exact this.2.2.2.2

lemma Inv_applyAction {s : State} (h : Inv s) (a : String) (rng : Rng) :
    Inv (applyAction s a rng).2.1 := by
  rcases hgo : s.game_over with _ | _
  · -- playing
    have hva := validActions_of_playing hgo
    by_cases hmem : normalize a ∈ directions.filter (fun d => (canMove d s).1)
    · -- accepted action
      rcases hmv : move (normalize a) {s with won := s.won || scanWon s.board}
        with ⟨s2, moved⟩
      obtain ⟨b2, sc2, w2, hshape, hunmoved⟩ :=
        move_shape (normalize a) {s with won := s.won || scanWon s.board}
      rw [hmv] at hshape hunmoved
      simp only at hshape hunmoved
      rcases moved with _ | _
      · -- the board did not change: no spawn, no game-over update
        rcases hgs : getState s2 with ⟨snap, t⟩
        have hInv : Inv t := by
          have hpost := Inv_getState_post s2 (fun _ => by
            rw [hshape]
            show hasAnyMove b2 = true
            rw [(hunmoved rfl).1]
            exact h.2 hgo)
          rwa [hgs] at hpost
        simp only [applyAction, hgo, Bool.false_eq_true, if_false]
        rw [hva]
        dsimp only
        rw [if_pos hmem, hmv]
        simp only [Bool.false_eq_true, if_false]
        rw [hgs]
        exact Inv_recordLog hInv _ _
      · -- the board changed: spawn a tile, then maybe end the game
        rcases hsp : spawnTile s2 rng with ⟨s2a, rng1⟩
        rcases hhm : hasMoves s2a with ⟨hm, s2b⟩
        obtain ⟨w4, hw4⟩ := hasMoves_snd s2a
        have hfst := hasMoves_fst s2a
        rw [hhm] at hw4 hfst
        simp only at hw4 hfst
        rcases hgs : getState {s2b with game_over := if hm then s2b.game_over else true}
          with ⟨snap, t⟩
        have hInv : Inv t := by
          have hpost := Inv_getState_post
            {s2b with game_over := if hm then s2b.game_over else true} (fun h3go => by
              cases hm with
              | false => simp at h3go
              | true =>
                rw [hw4]
                exact hfst.symm)
          rwa [hgs] at hpost
        simp only [applyAction, hgo, Bool.false_eq_true, if_false]
        rw [hva]
        dsimp only
        rw [if_pos hmem, hmv]
        simp only [eq_self_iff_true, if_true]
        rw [hsp]
        dsimp only
        rw [hhm]
        dsimp only
        rw [hgs]
        exact Inv_recordLog hInv _ _
    · -- rejected action
      rcases hgs : getState {s with won := s.won || scanWon s.board} with ⟨snap, t⟩
      have hInv : Inv t := by
        have hpost := Inv_getState_post {s with won := s.won || scanWon s.board}
          (fun _ => h.2 hgo)
        rwa [hgs] at hpost
      simp only [applyAction, hgo, Bool.false_eq_true, if_false]
      rw [hva]
      dsimp only
      rw [if_neg hmem]
      rw [hgs]
      exact hInv
  · -- already over: the state is returned unchanged
    simp only [applyAction, hgo, if_true]
    rw [getState_of_over hgo]
    exact Inv_of_over hgo

/-- Every reachable Game2048 state satisfies the interface invariant. -/
lemma Reachable_inv {s : State} (h : Reachable s) : Inv s := by
  induction h with
  | reset s rng => exact Inv_reset s rng
  | step a rng _ ih => exact Inv_applyAction ih a rng
  | query _ ih => rw [getState_snd_of_inv ih]; exact ih

lemma won_absorb_scan {s : State} (hInv : Inv s) (hgo : s.game_over = false) :
    (s.won || scanWon s.board) = s.won := by
  rcases hsw : scanWon s.board with _ | _
  · simp
  · simp [hInv.1 hgo hsw]

/-- `Game2048.apply_action` on an already-over game: unchanged state, error
snapshot, no log entry, no PRNG draw. -/
lemma applyAction_over_eq {s : State} (hgo : s.game_over = true) (a : String)
    (rng : Rng) :
    applyAction s a rng =
      ({board := s.board, score := s.score, game_over := s.game_over,
        won := s.won, valid_actions := [],
        error := some "Game is already over."}, s, rng) := by
  unfold applyAction
  rw [if_pos hgo, getState_of_over hgo]

/-- `Game2048.apply_action` when the *normalized* action is not in the valid
set, on an invariant-satisfying state: unchanged state, error snapshot, no log
entry, no PRNG draw. -/
lemma applyAction_rejected_eq {s : State} (hInv : Inv s) (hgo : s.game_over = false)
    {a : String} (hmem : normalize a ∉ directions.filter (fun d => (canMove d s).1))
    (rng : Rng) :
    applyAction s a rng =
      ({board := s.board, score := s.score, game_over := s.game_over,
        won := s.won, valid_actions := directions.filter (fun d => (canMove d s).1),
        error := some ("Invalid action: " ++ normalize a)}, s, rng) := by
  have hwon := won_absorb_scan hInv hgo
  unfold applyAction
  rw [if_neg (by rw [hgo]; simp), validActions_of_playing hgo]
  dsimp only
  rw [if_neg hmem]
  rw [getState_of_playing
    (show State.game_over {s with won := s.won || scanWon s.board} = false from hgo)]
  dsimp only
  simp only [canMove_won_update, hwon, Bool.or_assoc, Bool.or_self]

lemma len4_destruct {α : Type} (l : List α) (h : l.length = 4) :
    ∃ a b c d, l = [a, b, c, d] := by
  rcases l with _ | ⟨a, l⟩
  · simp at h
  rcases l with _ | ⟨b, l⟩
  · simp at h
  rcases l with _ | ⟨c, l⟩
  · simp at h
  rcases l with _ | ⟨d, l⟩
  · simp at h
  rcases l with _ | ⟨e, l⟩
  · exact ⟨a, b, c, d, rfl⟩
  · simp at h

/-- **C3.** The single-row merge pass merges each tile at most once per
action: `[v,v,v,v]` compresses to `[2v,2v,0,0]` with gain `4v` (never
`[4v,0,0,0]`), and in particular `[2,2,2,2]` yields `[4,4,0,0]` with score
gain 8. -/
theorem compress_merges_at_most_once :
    (∀ v : Nat, v ≠ 0 →
        compress [v, v, v, v] =
          ([2 * v, 2 * v, 0, 0], 4 * v, decide (2 * v = 2048), true)) ∧
    compress [2, 2, 2, 2] = ([4, 4, 0, 0], 8, false, true) := by
  constructor
  · intro v hv
    have hvv : 2 * v ≠ v := by omega
    simp only [compress, compressTiles, List.filter, hv, decide_not, if_pos rfl]
    simp [hv, hvv, GRID_SIZE, Nat.mul_comm, Prod.ext_iff]
    omega
  · decide

/-- Witness for C3 at the concrete tile value 3. -/
theorem compress_merges_at_most_once_witness :
    (3 : Nat) ≠ 0 ∧ compress [3, 3, 3, 3] = ([6, 6, 0, 0], 12, false, true) := by
  refine ⟨by decide, ?_⟩
  have h := compress_merges_at_most_once.1 3 (by decide)
  simpa using h

/-- **C6.** For every 4×4 board and every direction,
`_rotate_from_left d (_rotate_to_left d b) = b`. -/
theorem rotate_round_trip (b : Board) (hlen : b.length = 4)
    (hrows : ∀ row ∈ b, row.length = 4) :
    ∀ d ∈ ["left", "right", "up", "down"], rotateFromLeft d (rotateToLeft d b) = b := by
  obtain ⟨r0, r1, r2, r3, rfl⟩ := len4_destruct b hlen
  obtain ⟨a00, a01, a02, a03, h0⟩ := len4_destruct r0 (hrows r0 (by simp))
  obtain ⟨a10, a11, a12, a13, h1⟩ := len4_destruct r1 (hrows r1 (by simp))
  obtain ⟨a20, a21, a22, a23, h2⟩ := len4_destruct r2 (hrows r2 (by simp))
  obtain ⟨a30, a31, a32, a33, h3⟩ := len4_destruct r3 (hrows r3 (by simp))
  subst h0 h1 h2 h3
  intro d hd
  fin_cases hd <;> rfl

/-- Witness for C6 on a concrete board and direction. -/
theorem rotate_round_trip_witness :
    rotateFromLeft "down" (rotateToLeft "down"
        [[2, 4, 8, 16], [0, 2, 0, 4], [32, 0, 2, 0], [0, 0, 0, 2]]) =
      [[2, 4, 8, 16], [0, 2, 0, 4], [32, 0, 2, 0], [0, 0, 0, 2]] := by
  exact rotate_round_trip _ (by decide) (by decide) "down" (by simp)

/-- **C2.** On every reachable Game2048 state, `valid_actions()` (and
`get_state()`, which invokes it) leaves the session state unchanged, and the
action list is empty iff the game is over. -/
theorem validActions_pure_on_reachable (s : State) (hs : Reachable s) :
    (validActions s).2 = s ∧ (getState s).2 = s ∧
    ((validActions s).1 = [] ↔ s.game_over = true) := by
  have hInv := Reachable_inv hs
  refine ⟨validActions_snd_of_inv hInv, getState_snd_of_inv hInv, ?_⟩
  rcases hgo : s.game_over with _ | _
  · rw [validActions_of_playing hgo]
    constructor
    · intro hnil
      have hnil' : List.filter (fun d => (canMove d s).1) directions = [] := hnil
      have hmv := hInv.2 hgo
      unfold hasAnyMove at hmv
      obtain ⟨d, hd, hpd⟩ := List.any_eq_true.mp hmv
      have hmemd : d ∈ List.filter (fun d => (canMove d s).1) directions :=
        List.mem_filter.mpr ⟨hd, hpd⟩
      rw [hnil'] at hmemd
      simp at hmemd
    · intro hcontra
      exact absurd hcontra (by decide)
  · rw [validActions_of_over hgo]
    simp [hgo]

/-- Witness for C2 on a concrete freshly-reset session. -/
theorem validActions_pure_on_reachable_witness :
    (validActions (reset blankState [(0, false), (5, true)]).2.1).2 =
      (reset blankState [(0, false), (5, true)]).2.1 ∧
    ¬((validActions (reset blankState [(0, false), (5, true)]).2.1).1 = []) := by
  have h := validActions_pure_on_reachable _
    (Reachable.reset blankState [(0, false), (5, true)])
  refine ⟨h.1, fun hnil => ?_⟩
  have := h.2.2.mp hnil
  revert this
  decide

/-- **C10.** Every `Game2048.reset()` snapshot has score 0, `game_over` and
`won` false, and a 4×4 board with exactly two non-zero cells, each 2 or 4. -/
theorem reset_snapshot_spec (s : State) (rng : Rng) :
    (reset s rng).1.score = 0 ∧ (reset s rng).1.game_over = false ∧
    (reset s rng).1.won = false ∧
    (reset s rng).1.board.length = 4 ∧
    (∀ row ∈ (reset s rng).1.board, row.length = 4) ∧
    (reset s rng).1.board.flatten.countP (fun v => v ≠ 0) = 2 ∧
    (∀ v ∈ (reset s rng).1.board.flatten, v = 0 ∨ v = 2 ∨ v = 4) := by
  have hok := (resetBoard_facts (rng.headD (0, false)).1
    (rng.tail.headD (0, false)).1 (rng.headD (0, false)).2
    (rng.tail.headD (0, false)).2).2
  rw [reset_eq]
  dsimp only
  exact ⟨rfl, rfl, rfl, hok.2.2.1, hok.2.2.2.1, hok.1, hok.2.1⟩

/-- **C1, counterexample.** The raw action string "UP " is not an element of
`valid_actions()` (which holds only lowercase names), yet `apply_action("UP ")`
normalizes it and mutates the session, refuting the claim that any action
outside the reported valid list leaves the state unchanged. -/
theorem raw_uppercase_action_mutates_2048 :
    ((reset blankState [(0, false), (5, true)]).2.1.game_over = false ∧
     "UP " ∉ (validActions (reset blankState [(0, false), (5, true)]).2.1).1 ∧
     (applyAction (reset blankState [(0, false), (5, true)]).2.1
          "UP " [(3, false)]).2.1.board ≠
       (reset blankState [(0, false), (5, true)]).2.1.board) := by
  decide

lemma getState_snd_log (x : State) :
    (getState x).2.log = x.log ∧ (getState x).2.steps = x.steps := by
  rcases hgo : x.game_over with _ | _
  · rw [getState_of_playing hgo]
    exact ⟨rfl, rfl⟩
  · rw [getState_of_over hgo]
    exact ⟨rfl, rfl⟩

/-- `Game2048.apply_action` either leaves the in-memory log and the step
counter unchanged (game already over, or action rejected) or appends exactly
one entry with step index `steps + 1`. -/
lemma applyAction_log (s : State) (a : String) (rng : Rng) :
    ((applyAction s a rng).2.1.log = s.log ∧
     (applyAction s a rng).2.1.steps = s.steps) ∨
    (∃ sn : Snap, (applyAction s a rng).2.1.log =
        s.log ++ [{step := s.steps + 1, action := normalize a, score := sn.score,
                   game_over := sn.game_over, board := sn.board}] ∧
      (applyAction s a rng).2.1.steps = s.steps + 1) := by
  rcases hgo : s.game_over with _ | _
  · have hva := validActions_of_playing hgo
    by_cases hmem : normalize a ∈ directions.filter (fun d => (canMove d s).1)
    · right
      rcases hmv : move (normalize a) {s with won := s.won || scanWon s.board}
        with ⟨s2, moved⟩
      obtain ⟨b2, sc2, w2, hshape, -⟩ :=
        move_shape (normalize a) {s with won := s.won || scanWon s.board}
      rw [hmv] at hshape
      simp only at hshape
      rcases moved with _ | _
      · rcases hgs : getState s2 with ⟨snap, t⟩
        have hlt : t.log = s.log ∧ t.steps = s.steps := by
          have h1 := getState_snd_log s2
          rw [hgs] at h1
          simp only at h1
          rw [hshape] at h1
          exact h1
        have happ : (applyAction s a rng).2.1 = recordLog (normalize a) snap t := by
          simp only [applyAction, hgo, Bool.false_eq_true, if_false]
          rw [hva]
          dsimp only
          rw [if_pos hmem, hmv]
          simp only [Bool.false_eq_true, if_false]
          rw [hgs]
        refine ⟨snap, ?_, ?_⟩
        · rw [happ]
          unfold recordLog
          dsimp only
          rw [hlt.1, hlt.2]
        · rw [happ]
          unfold recordLog
          dsimp only
          rw [hlt.2]
      · rcases hsp : spawnTile s2 rng with ⟨s2a, rng1⟩
        obtain ⟨b3, hb3⟩ := spawnTile_shape s2 rng
        rw [hsp] at hb3
        simp only at hb3
        rcases hhm : hasMoves s2a with ⟨hm, s2b⟩
        obtain ⟨w4, hw4⟩ := hasMoves_snd s2a
        rw [hhm] at hw4
        simp only at hw4
        rcases hgs : getState {s2b with game_over := if hm then s2b.game_over else true}
          with ⟨snap, t⟩
        have hlt : t.log = s.log ∧ t.steps = s.steps := by
          have h1 := getState_snd_log
            {s2b with game_over := if hm then s2b.game_over else true}
          rw [hgs] at h1
          simp only at h1
          rw [hw4, hb3, hshape] at h1
          exact h1
        have happ : (applyAction s a rng).2.1 = recordLog (normalize a) snap t := by
          simp only [applyAction, hgo, Bool.false_eq_true, if_false]
          rw [hva]
          dsimp only
          rw [if_pos hmem, hmv]
          simp only [eq_self_iff_true, if_true]
          rw [hsp]
          dsimp only
          rw [hhm]
          dsimp only
          rw [hgs]
        refine ⟨snap, ?_, ?_⟩
        · rw [happ]
          unfold recordLog
          dsimp only
          rw [hlt.1, hlt.2]
        · rw [happ]
          unfold recordLog
          dsimp only
          rw [hlt.2]
    · left
      rcases hgs : getState {s with won := s.won || scanWon s.board} with ⟨snap, t⟩
      have h1 := getState_snd_log {s with won := s.won || scanWon s.board}
      rw [hgs] at h1
      simp only at h1
      have happ : (applyAction s a rng).2.1 = t := by
        simp only [applyAction, hgo, Bool.false_eq_true, if_false]
        rw [hva]
        dsimp only
        rw [if_neg hmem, hgs]
      rw [happ]
      exact h1
  · left
    have happ : (applyAction s a rng).2.1 = s := by
      simp only [applyAction, hgo, if_true]
      rw [getState_of_over hgo]
    rw [happ]
    exact ⟨rfl, rfl⟩

lemma LogInv_reset (s : State) (rng : Rng) : LogInv (reset s rng).2.1 := by
  rw [reset_eq]
  exact stepsOKList_nil _

lemma LogInv_applyAction {s : State} (h : LogInv s) (a : String) (rng : Rng) :
    LogInv (applyAction s a rng).2.1 := by
  rcases applyAction_log s a rng with ⟨hl, hs⟩ | ⟨sn, hl, hs⟩
  · unfold LogInv
    rw [hl, hs]
    exact h
  · unfold LogInv
    rw [hl, hs]
    exact stepsOKList_append _ h rfl

lemma LogInv_getState {s : State} (h : LogInv s) : LogInv (getState s).2 := by
  obtain ⟨hl, hs⟩ := getState_snd_log s
  unfold LogInv
  rw [hl, hs]
  exact h

/-- Every reachable Game2048 session satisfies the step-numbering invariant. -/
lemma Reachable_logInv {s : State} (h : Reachable s) : LogInv s := by
  induction h with
  | reset s rng => exact LogInv_reset s rng
  | step a rng _ ih => exact LogInv_applyAction ih a rng
  | query _ ih => exact LogInv_getState ih

end Game2048

namespace MergeFall

@[simp] lemma recordLog_cols (a : String) (snap : Snap) (s : State) :
    (recordLog a snap s).cols = s.cols := rfl
@[simp] lemma recordLog_game_over2 (a : String) (snap : Snap) (s : State) :
    (recordLog a snap s).game_over = s.game_over := rfl
@[simp] lemma recordLog_score2 (a : String) (snap : Snap) (s : State) :
    (recordLog a snap s).score = s.score := rfl
@[simp] lemma recordLog_width (a : String) (snap : Snap) (s : State) :
    (recordLog a snap s).width = s.width := rfl

lemma applyGravity_shape (s : State) :
    ∃ cols ap, applyGravity s = {s with cols := cols, active_pos := ap} :=
  ⟨_, _, rfl⟩

lemma finalize_shape (s : State) :
    ∃ cols ap, (finalizeActiveAndGetValue s).2 = {s with cols := cols, active_pos := ap} := by
  unfold finalizeActiveAndGetValue
  rcases s.active_pos with _ | ⟨r, c⟩
  · exact ⟨s.cols, s.active_pos, by simp⟩
  · exact ⟨_, _, rfl⟩

lemma resolveLoopFuel_shape (fuel : Nat) (s : State) (combo : Nat) :
    ∃ cols ap, (resolveLoopFuel fuel s combo).1 = {s with cols := cols, active_pos := ap} := by
  induction fuel generalizing s combo with
  | zero => exact ⟨s.cols, s.active_pos, by simp [resolveLoopFuel]⟩
  | succ fuel ih =>
    unfold resolveLoopFuel
    obtain ⟨gc, ga, hg⟩ := applyGravity_shape s
    rw [hg]
    dsimp only
    rcases ga with _ | rc
    · exact ⟨gc, none, rfl⟩
    · dsimp only
      by_cases hv : (cell gc rc.1 rc.2).natAbs = 0
      · rw [if_pos hv]
        exact ⟨gc, some rc, rfl⟩
      · rw [if_neg hv]
        by_cases hns : (sameValueNeighbors {s with cols := gc, active_pos := some rc}
            rc.1 rc.2 ((cell gc rc.1 rc.2).natAbs)).isEmpty = true
        · rw [if_pos hns]
          exact ⟨gc, some rc, rfl⟩
        · rw [if_neg hns]
          obtain ⟨c2, a2, h2⟩ := ih _ (combo + 1)
          rw [h2]
          exact ⟨c2, a2, rfl⟩

/- Termination of the absorption loop: each pass of `resolveLoopFuel` strictly
decreases `countNonzero`, so `countNonzero + 1` fuel is always enough. -/

lemma countP_replicate_zero (n : Nat) :
    (List.replicate n (0 : Int)).countP (fun v => v ≠ 0) = 0 := by
  induction n with
  | zero => simp
  | succ n ih => simp [List.replicate_succ, List.countP_cons, ih]

lemma countP_gravityCol (h : Nat) (col : List Int) :
    (gravityCol h col).countP (fun v => v ≠ 0) = col.countP (fun v => v ≠ 0) := by
  unfold gravityCol
  rw [List.countP_append, countP_replicate_zero]
  rw [List.countP_eq_length_filter, List.countP_eq_length_filter, List.filter_filter]
  simp

lemma countNonzero_gravity (s : State) :
    countNonzero (applyGravity s).cols = countNonzero s.cols := by
  unfold applyGravity countNonzero
  dsimp only
  rw [List.map_map]
  congr 1
  apply List.map_congr_left
  intro col _
  exact countP_gravityCol s.height col

lemma countP_set_le (l : List Int) (i : Nat) :
    (l.set i 0).countP (fun v => v ≠ 0) ≤ l.countP (fun v => v ≠ 0) := by
  induction l generalizing i with
  | nil => simp
  | cons x xs ih =>
    cases i with
    | zero => simp [List.countP_cons]
    | succ i =>
      simp only [List.set, List.countP_cons]
      have := ih i
      omega

lemma countP_set_lt (l : List Int) (i : Nat) (h : l.getD i 0 ≠ 0) :
    (l.set i 0).countP (fun v => v ≠ 0) < l.countP (fun v => v ≠ 0) := by
  induction l generalizing i with
  | nil => simp at h
  | cons x xs ih =>
    cases i with
    | zero =>
      simp only [List.getD_cons_zero] at h
      simp [List.countP_cons, h]
    | succ i =>
      simp only [List.getD_cons_succ] at h
      simp only [List.set, List.countP_cons]
      have := ih i h
      omega

lemma countP_set_keep (l : List Int) (i : Nat) (a : Int) (ha : a ≠ 0)
    (h : l.getD i 0 ≠ 0) :
    (l.set i a).countP (fun v => v ≠ 0) = l.countP (fun v => v ≠ 0) := by
  induction l generalizing i with
  | nil => simp at h
  | cons x xs ih =>
    cases i with
    | zero =>
      simp only [List.getD_cons_zero] at h
      simp [List.countP_cons, h, ha]
    | succ i =>
      simp only [List.getD_cons_succ] at h
      simp only [List.set, List.countP_cons]
      have := ih i h
      omega

lemma countNonzero_setCell_le (cs : List (List Int)) (r c : Nat) :
    countNonzero (setCell cs r c 0) ≤ countNonzero cs := by
  unfold setCell countNonzero
  induction cs generalizing c with
  | nil => simp
  | cons col cols ih =>
    cases c with
    | zero =>
      simp only [List.getD_cons_zero, List.set, List.map, List.sum_cons]
      have := countP_set_le col r
      omega
    | succ c =>
      simp only [List.getD_cons_succ, List.set, List.map, List.sum_cons]
      have := ih c
      omega

lemma countNonzero_setCell_lt (cs : List (List Int)) (r c : Nat)
    (h : cell cs r c ≠ 0) :
    countNonzero (setCell cs r c 0) < countNonzero cs := by
  unfold cell at h
  unfold setCell countNonzero
  induction cs generalizing c with
  | nil => simp at h
  | cons col cols ih =>
    cases c with
    | zero =>
      simp only [List.getD_cons_zero] at h
      simp only [List.getD_cons_zero, List.set, List.map, List.sum_cons]
      have := countP_set_lt col r h
      omega
    | succ c =>
      simp only [List.getD_cons_succ] at h
      simp only [List.getD_cons_succ, List.set, List.map, List.sum_cons]
      have := ih c h
      omega

lemma countNonzero_setCell_keep (cs : List (List Int)) (r c : Nat) (a : Int)
    (ha : a ≠ 0) (h : cell cs r c ≠ 0) :
    countNonzero (setCell cs r c a) = countNonzero cs := by
  unfold cell at h
  unfold setCell countNonzero
  induction cs generalizing c with
  | nil => simp at h
  | cons col cols ih =>
    cases c with
    | zero =>
      simp only [List.getD_cons_zero] at h
      simp only [List.getD_cons_zero, List.set, List.map, List.sum_cons]
      have := countP_set_keep col r a ha h
      omega
    | succ c =>
      simp only [List.getD_cons_succ] at h
      simp only [List.getD_cons_succ, List.set, List.map, List.sum_cons]
      have := ih c h
      omega

lemma getD_set_ne {α : Type} (l : List α) (d : α) {i j : Nat} (h : i ≠ j) (a : α) :
    (l.set i a).getD j d = l.getD j d := by
  induction l generalizing i j with
  | nil => simp
  | cons x xs ih =>
    cases i with
    | zero =>
      cases j with
      | zero => exact absurd rfl h
      | succ j => simp [List.set]
    | succ i =>
      cases j with
      | zero => simp [List.set]
      | succ j =>
        simp only [List.set, List.getD_cons_succ]
        exact ih (by omega)

lemma getD_set_self {α : Type} (l : List α) (d : α) {i : Nat} (h : i < l.length)
    (a : α) : (l.set i a).getD i d = a := by
  induction l generalizing i with
  | nil => simp at h
  | cons x xs ih =>
    cases i with
    | zero => simp [List.set]
    | succ i =>
      simp only [List.set, List.getD_cons_succ]
      exact ih (by simpa using h)

lemma cell_setCell_ne (cs : List (List Int)) {r c r' c' : Nat} (a : Int)
    (h : (r, c) ≠ (r', c')) :
    cell (setCell cs r' c' a) r c = cell cs r c := by
  unfold cell setCell
  by_cases hc : c = c'
  · subst hc
    have hr : r ≠ r' := by
      intro hrr
      exact h (by rw [hrr])
    by_cases hlen : c < cs.length
    · rw [getD_set_self cs [] hlen]
      exact getD_set_ne _ _ (Ne.symm hr) a
    · push_neg at hlen
      rw [List.set_eq_of_length_le hlen]
  · rw [getD_set_ne _ _ (fun hcc => hc hcc.symm)]

lemma sameValueNeighbors_ne_center (s : State) (r c t : Nat) :
    ∀ q ∈ sameValueNeighbors s r c t, q ≠ (r, c) := by
  intro q hq
  simp only [sameValueNeighbors, List.mem_filterMap, List.mem_cons,
    List.mem_singleton, List.not_mem_nil, or_false] at hq
  obtain ⟨p, hp, hcond⟩ := hq
  rcases hp with hp | hp | hp | hp <;> subst hp <;>
    (split at hcond
     · rename_i hside
       obtain rfl := Option.some.inj hcond
       intro hqe
       rw [Prod.mk.injEq] at hqe
       omega
     · cases hcond)

lemma sameValueNeighbors_cell (s : State) (r c t : Nat) :
    ∀ q ∈ sameValueNeighbors s r c t, (cell s.cols q.1 q.2).natAbs = t := by
  intro q hq
  simp only [sameValueNeighbors, List.mem_filterMap, List.mem_cons,
    List.mem_singleton, List.not_mem_nil, or_false] at hq
  obtain ⟨p, hp, hcond⟩ := hq
  rcases hp with hp | hp | hp | hp <;> subst hp <;>
    (split at hcond
     · rename_i hside
       obtain rfl := Option.some.inj hcond
       exact hside.2.2.2.2
     · cases hcond)

lemma countNonzero_clearList_le (ns : List (Nat × Nat)) (cs : List (List Int)) :
    countNonzero (ns.foldl (fun cs p => setCell cs p.1 p.2 0) cs) ≤ countNonzero cs := by
  induction ns generalizing cs with
  | nil => simp
  | cons n rest ih =>
    simp only [List.foldl]
    exact le_trans (ih _) (countNonzero_setCell_le _ _ _)

lemma countNonzero_clearList_lt (n0 : Nat × Nat) (rest : List (Nat × Nat))
    (cs : List (List Int)) (h : cell cs n0.1 n0.2 ≠ 0) :
    countNonzero ((n0 :: rest).foldl (fun cs p => setCell cs p.1 p.2 0) cs) <
      countNonzero cs := by
  simp only [List.foldl]
  exact lt_of_le_of_lt (countNonzero_clearList_le rest _)
    (countNonzero_setCell_lt cs n0.1 n0.2 h)

lemma cell_clearList_ne (ns : List (Nat × Nat)) (cs : List (List Int)) {r c : Nat}
    (h : ∀ q ∈ ns, q ≠ (r, c)) :
    cell (ns.foldl (fun cs p => setCell cs p.1 p.2 0) cs) r c = cell cs r c := by
  induction ns generalizing cs with
  | nil => rfl
  | cons n rest ih =>
    simp only [List.foldl]
    rw [ih _ (fun q hq => h q (List.mem_cons_of_mem n hq))]
    refine cell_setCell_ne cs 0 ?_
    intro he
    exact h n (List.mem_cons_self n rest) (by rw [he])

/-- One absorption pass strictly decreases the number of non-empty cells, so
`countNonzero + 1` fuel always lets the loop run to its natural exit: the
fuel-based embedding computes exactly the Python `while True` loop. -/
lemma resolveLoopFuel_stable : ∀ (fuel : Nat) (s : State) (combo : Nat),
    countNonzero s.cols < fuel →
    resolveLoopFuel (fuel + 1) s combo = resolveLoopFuel fuel s combo := by
  intro fuel
  induction fuel with
  | zero =>
    intro s combo h
    exact absurd h (Nat.not_lt_zero _)
  | succ fuel ih =>
    intro s combo h
    conv_lhs => rw [resolveLoopFuel]
    conv_rhs => rw [resolveLoopFuel]
    dsimp only
    rcases hap : (applyGravity s).active_pos with _ | rc
    · rfl
    · dsimp only
      by_cases hv : (cell (applyGravity s).cols rc.1 rc.2).natAbs = 0
      · rw [if_pos hv, if_pos hv]
      · rw [if_neg hv, if_neg hv]
        rcases hns : sameValueNeighbors (applyGravity s) rc.1 rc.2
            ((cell (applyGravity s).cols rc.1 rc.2).natAbs) with _ | ⟨n0, rest⟩
        · simp
        · simp only [List.isEmpty_cons, Bool.false_eq_true, if_false]
          apply ih
          -- the cleared-and-upgraded board has strictly fewer non-empty cells
          have hgrav := countNonzero_gravity s
          have hcell0 : cell (applyGravity s).cols n0.1 n0.2 ≠ 0 := by
            have := sameValueNeighbors_cell (applyGravity s) rc.1 rc.2
              ((cell (applyGravity s).cols rc.1 rc.2).natAbs) n0
              (by rw [hns]; exact List.mem_cons_self n0 rest)
            intro hz
            rw [hz] at this
            simp at this
            exact hv this.symm
          have hlt := countNonzero_clearList_lt n0 rest (applyGravity s).cols hcell0
          have hcenter : cell ((n0 :: rest).foldl
              (fun cs p => setCell cs p.1 p.2 0) (applyGravity s).cols) rc.1 rc.2 ≠ 0 := by
            rw [cell_clearList_ne _ _ (by
              intro q hq
              exact sameValueNeighbors_ne_center (applyGravity s) rc.1 rc.2 _ q
                (by rw [hns]; exact hq))]
            intro hz
            rw [hz] at hv
            simp at hv
          have hkeep := countNonzero_setCell_keep
            ((n0 :: rest).foldl (fun cs p => setCell cs p.1 p.2 0) (applyGravity s).cols)
            rc.1 rc.2
            (-(((cell (applyGravity s).cols rc.1 rc.2).natAbs *
                2 ^ ceilLog2 (1 + (n0 :: rest).length) : Nat) : Int))
            (by
              simp only [ne_eq, neg_eq_zero, Int.natCast_eq_zero, Nat.mul_eq_zero,
                not_or]
              constructor
              · exact hv
              · positivity)
            hcenter
          dsimp only
          rw [hkeep]
          omega

lemma resolveLoopFuel_pad (s : State) (combo : Nat) : ∀ d : Nat,
    resolveLoopFuel (countNonzero s.cols + 1 + d) s combo =
      resolveLoopFuel (countNonzero s.cols + 1) s combo := by
  intro d
  induction d with
  | zero => rfl
  | succ d ih =>
    rw [show countNonzero s.cols + 1 + (d + 1) = countNonzero s.cols + 1 + d + 1 from rfl]
    rw [resolveLoopFuel_stable _ _ _ (by omega)]
    exact ih

/-- Any fuel of at least `countNonzero s.cols + 1` computes the same result as the
canonical fuel, so the fuel-based loop embedding is exact: the Python `while True`
loop always terminates within that many passes. -/
lemma resolveLoopFuel_exact (f : Nat) (s : State) (combo : Nat)
    (h : countNonzero s.cols + 1 ≤ f) :
    resolveLoopFuel f s combo = resolveLoopFuel (countNonzero s.cols + 1) s combo := by
  obtain ⟨d, rfl⟩ := Nat.exists_eq_add_of_le h
  exact resolveLoopFuel_pad s combo d


lemma resolveActiveDrop_shape (s : State) :
    ∃ cols ap, (resolveActiveDrop s).1 = {s with cols := cols, active_pos := ap} := by
  unfold resolveActiveDrop
  rcases s.active_pos with _ | rc
  · exact ⟨s.cols, s.active_pos, by simp⟩
  · dsimp only
    obtain ⟨c1, a1, h1⟩ := resolveLoopFuel_shape (countNonzero s.cols + 1) s 0
    obtain ⟨c2, a2, h2⟩ := finalize_shape (resolveLoopFuel (countNonzero s.cols + 1) s 0).1
    rw [h2, h1]
    exact ⟨c2, a2, rfl⟩

/-- The guarded drop never fails: row 0 of the chosen column is empty, so the
bottom-up scan finds a cell. -/
lemma dropActive_isSome {s : State} {c : Nat} (hh : 0 < s.height)
    (hempty : cell s.cols 0 c = 0) (v : Nat) : (dropActive s c v).isSome := by
  unfold dropActive
  rcases hf : (List.range s.height).reverse.find? (fun r => cell s.cols r c = 0)
    with _ | r
  · exfalso
    have h0 : (0 : Nat) ∈ (List.range s.height).reverse := by
      rw [List.mem_reverse]
      exact List.mem_range.mpr hh
    have := List.find?_eq_none.mp hf 0 h0
    simp [hempty] at this
  · simp

/-- **C7.** `MergeFall.apply_action` never raises: every branch returns a
snapshot, and the `RuntimeError` branch of `_drop_active_into_column` is
unreachable because the drop only happens after the overflow-row cell of the
chosen column was checked to be empty.  (`reset`, `get_state` and
`valid_actions`, and all Game2048 operations, are total functions of the
embedding by construction.) -/
theorem applyAction_never_raises (s : State) (a : String) (hh : 0 < s.height) :
    (applyAction s a).isSome := by
  unfold applyAction
  dsimp only
  by_cases hgo : s.game_over = true
  · rw [if_pos hgo]
    simp
  · rw [if_neg hgo]
    rcases hp : parseActionToCol (Game2048.normalize a) with _ | col
    · simp
    · dsimp only
      by_cases hcol : col < s.width
      · rw [if_pos hcol]
        by_cases hfull : cell s.cols 0 col ≠ 0
        · rw [if_pos hfull]
          simp
        · rw [if_neg hfull]
          push_neg at hfull
          have hds := dropActive_isSome hh hfull s.next_tile
          rcases hd : dropActive s col s.next_tile with _ | rs
          · rw [hd] at hds
            simp at hds
          · simp
      · rw [if_neg hcol]
        simp

/-- `MergeFall.apply_action` on an already-over game is a pure no-op with an
error snapshot. -/
lemma mf_applyAction_over_eq {s : State} (hgo : s.game_over = true) (a : String) :
    applyAction s a =
      some ({getState s with error := some "Game is already over."}, s) := by
  unfold applyAction
  rw [if_pos hgo]

/-- `MergeFall.apply_action` with an unparseable action is a pure no-op with
an error snapshot. -/
lemma mf_applyAction_badparse_eq {s : State} (hgo : s.game_over = false)
    {a : String} (hp : parseActionToCol (Game2048.normalize a) = none) :
    applyAction s a =
      some ({getState s with
              error := some ("Invalid action: " ++ Game2048.normalize a)}, s) := by
  unfold applyAction
  rw [if_neg (by rw [hgo]; simp)]
  dsimp only
  rw [hp]

/-- `MergeFall.apply_action` with an out-of-range column is a pure no-op with
an error snapshot. -/
lemma mf_applyAction_outofrange_eq {s : State} (hgo : s.game_over = false)
    {a : String} {col : Nat} (hp : parseActionToCol (Game2048.normalize a) = some col)
    (hcol : ¬ col < s.width) :
    applyAction s a =
      some ({getState s with
              error := some ("Invalid action: " ++ Game2048.normalize a)}, s) := by
  unfold applyAction
  rw [if_neg (by rw [hgo]; simp)]
  dsimp only
  rw [hp]
  dsimp only
  rw [if_neg hcol]

/-- Witness for C7 on a concrete state and action. -/
theorem applyAction_never_raises_witness :
    0 < demoStack.height ∧ (applyAction demoStack "drop 2").isSome :=
  ⟨by decide, applyAction_never_raises demoStack "drop 2" (by decide)⟩

lemma dropActive_some {s : State} {col v r : Nat} {s2 : State}
    (h : dropActive s col v = some (r, s2)) :
    s2 = {s with cols := setCell s.cols r col (-(v : Int))} := by
  unfold dropActive at h
  rcases hf : (List.range s.height).reverse.find? (fun x => cell s.cols x col = 0)
    with _ | r'
  · rw [hf] at h
    cases h
  · rw [hf] at h
    simp only [Option.some.injEq, Prod.mk.injEq] at h
    rw [← h.1, ← h.2]

lemma sampleNextTileState_shape (s : State) :
    ∃ rng', (sampleNextTileState s).2 = {s with rng := rng'} := by
  unfold sampleNextTileState
  by_cases h : currentMaxTile s < 2
  · exact ⟨s.rng, by rw [if_pos h]⟩
  · exact ⟨s.rng.tail, by rw [if_neg h]⟩

lemma resolveActiveDrop_game_over (s : State) :
    (resolveActiveDrop s).1.game_over = s.game_over := by
  obtain ⟨c, a, h⟩ := resolveActiveDrop_shape s
  rw [h]

lemma sampleNextTileState_game_over (t : State) :
    (sampleNextTileState t).2.game_over = t.game_over := by
  obtain ⟨rng', h⟩ := sampleNextTileState_shape t
  rw [h]

@[simp] lemma overflowRow_score (t : State) (x : Nat) :
    overflowRow {t with score := x} = overflowRow t := rfl

/-- **C4.** After a drop on a playing state: if even the overflow-row cell of
the chosen column is occupied, the game ends immediately with no score change;
otherwise `game_over` after the action equals "some overflow-row cell is still
occupied after full resolution of the drop".  The fixtures witness both
directions: a full *visible* column is saved by cascading merges
(`demoSaved`), a truly full column ends the game with unchanged score
(`demoFullColumn`). -/
theorem game_over_iff_overflow :
    (∀ (s : State) (a : String) (col : Nat), s.game_over = false →
      parseActionToCol (Game2048.normalize a) = some col → col < s.width →
      (cell s.cols 0 col ≠ 0 →
        applyAction s a = some
          ({getState {s with game_over := true} with
             error := some ("Column " ++ toString col ++ " has no room. Game over.")},
           {s with game_over := true})) ∧
      (cell s.cols 0 col = 0 →
        ∀ r s2, dropActive s col s.next_tile = some (r, s2) →
          ∀ p, applyAction s a = some p →
            p.2.game_over =
              overflowRow (resolveActiveDrop {s2 with active_pos := some (r, col)}).1)) ∧
    ((applyAction demoSaved "drop 1").map (fun p => (p.2.game_over, p.2.score)) =
      some (false, 768)) ∧
    ((applyAction demoFullColumn "drop 0").map (fun p => (p.2.game_over, p.2.score)) =
      some (true, demoFullColumn.score)) ∧
    (∀ r, 1 ≤ r → r ≤ 6 → cell demoSaved.cols r 1 ≠ 0) := by
  refine ⟨?_, by decide, by decide, by decide⟩
  intro s a col hgo hp hcol
  constructor
  · intro hfull
    unfold applyAction
    rw [if_neg (by rw [hgo]; simp)]
    dsimp only
    rw [hp]
    dsimp only
    rw [if_pos hcol, if_pos hfull]
  · intro hempty r s2 hd p hap
    have hs2 := dropActive_some hd
    subst hs2
    unfold applyAction at hap
    rw [if_neg (by rw [hgo]; simp)] at hap
    dsimp only at hap
    rw [hp] at hap
    dsimp only at hap
    rw [if_pos hcol, if_neg (by rw [hempty]; simp), hd] at hap
    simp only [overflowRow_score] at hap
    have hgo3 : (resolveActiveDrop
        {{s with cols := setCell s.cols r col (-(s.next_tile : Int))} with
          active_pos := some (r, col)}).1.game_over = false := by
      rw [resolveActiveDrop_game_over]
      exact hgo
    rcases hov : overflowRow (resolveActiveDrop
        {{s with cols := setCell s.cols r col (-(s.next_tile : Int))} with
          active_pos := some (r, col)}).1 with _ | _
    · -- no overflow: the game continues, next tile is sampled
      rw [hov] at hap
      simp only [Bool.false_eq_true, if_false] at hap
      rw [hgo3] at hap
      simp only [Bool.false_eq_true, if_false] at hap
      have hinj := Option.some.inj hap
      rw [← hinj]
      simp only [recordLog_game_over2]
      rw [hov]
      rw [sampleNextTileState_game_over]
    · -- overflow: game over, no sampling
      rw [hov] at hap
      simp only [if_true] at hap
      have hinj := Option.some.inj hap
      rw [← hinj]
      simp only [recordLog_game_over2]
      rw [hov]

/-- Witness for C4: the truly-full column ends the game immediately with the
error snapshot and zero score gain. -/
theorem game_over_iff_overflow_witness :
    applyAction demoFullColumn "drop 0" =
      some ({getState {demoFullColumn with game_over := true} with
              error := some ("Column " ++ toString 0 ++ " has no room. Game over.")},
            {demoFullColumn with game_over := true}) :=
  (game_over_iff_overflow.1 demoFullColumn "drop 0" 0 (by decide) (by decide)
    (by decide)).1 (by decide)

/-- `bitLength` computes Python's `int.bit_length`:
`2^(bitLength n - 1) ≤ n < 2^(bitLength n)` for `n ≥ 1`. -/
lemma bitLength_spec {n : Nat} (h : 1 ≤ n) :
    2 ^ (bitLength n - 1) ≤ n ∧ n < 2 ^ bitLength n := by
  unfold bitLength
  rw [if_neg (by omega)]
  constructor
  · simp only [Nat.add_sub_cancel]
    exact Nat.findGreatest_spec (P := fun k => 2 ^ k ≤ n) (m := 0) (Nat.zero_le n)
      (by simpa using h)
  · by_contra hc
    push_neg at hc
    have hpow : Nat.findGreatest (fun k => 2 ^ k ≤ n) n + 1 <
        2 ^ (Nat.findGreatest (fun k => 2 ^ k ≤ n) n + 1) := Nat.lt_two_pow _
    have hle : Nat.findGreatest (fun k => 2 ^ k ≤ n) n + 1 ≤ n :=
      le_trans (le_of_lt hpow) hc
    exact (Nat.findGreatest_is_greatest (Nat.lt_succ_self _) hle) hc

/-- `2 ^ ceilLog2 n` is the least power of two that is at least `n`. -/
lemma ceilLog2_least {n : Nat} (h : 2 ≤ n) :
    n ≤ 2 ^ ceilLog2 n ∧ 2 ^ ceilLog2 n < 2 * n := by
  unfold ceilLog2
  rw [if_neg (by omega)]
  obtain ⟨h1, h2⟩ := bitLength_spec (n := n - 1) (by omega)
  have hB : 1 ≤ bitLength (n - 1) := by
    by_contra hb
    push_neg at hb
    have h0 : bitLength (n - 1) = 0 := by omega
    rw [h0] at h2
    simp at h2
    omega
  have hsplit : 2 ^ bitLength (n - 1) = 2 * 2 ^ (bitLength (n - 1) - 1) := by
    conv_lhs => rw [show bitLength (n - 1) = (bitLength (n - 1) - 1) + 1 by omega]
    rw [pow_succ]
    ring
  constructor
  · omega
  · omega

/-- **C5.** The turn score is `final_active_value * combo` when `combo ≥ 1`
and 0 otherwise; each absorption upgrades the active value by the factor
`2^ceil_log2(1+k)` with `2^ceil_log2(m)` the least power of two ≥ m
(`ceil_log2` being 0 on m ≤ 1); and the worked example — dropping 2 onto the
stack `[2,2]` with exactly one matching neighbor — gives final value 4,
combo 1 and score gain 4. -/
theorem merge_score_formula :
    (∀ s : State, (resolveActiveDrop s).2.1 =
        if (resolveActiveDrop s).2.2.1 = 0 then 0
        else (resolveActiveDrop s).2.2.2 * (resolveActiveDrop s).2.2.1) ∧
    ceilLog2 0 = 0 ∧ ceilLog2 1 = 0 ∧
    (∀ n, 2 ≤ n → n ≤ 2 ^ ceilLog2 n ∧ 2 ^ ceilLog2 n < 2 * n) ∧
    ((resolveActiveDrop demoDropped).2.2.1 = 1 ∧
     (resolveActiveDrop demoDropped).2.2.2 = 4 ∧
     (resolveActiveDrop demoDropped).2.1 = 4) ∧
    ((applyAction demoStack "drop 2").map
        (fun p => (p.2.score, visibleBoard p.2, p.2.game_over))) =
      some (4, [[0, 0, 0, 0, 0], [0, 0, 0, 0, 0], [0, 0, 0, 0, 0], [0, 0, 0, 0, 0],
                [0, 0, 4, 0, 0], [0, 0, 2, 0, 0]], false) := by
  refine ⟨?_, by decide, by decide, fun n hn => ceilLog2_least hn, by decide, by decide⟩
  intro s
  unfold resolveActiveDrop
  rcases s.active_pos with _ | rc
  · simp
  · rfl

/-- Witness for C5 at `n = 3`: the least power of two at least 3 is
`2^ceilLog2 3 = 4`. -/
theorem merge_score_formula_witness :
    (3 : Nat) ≤ 2 ^ ceilLog2 3 ∧ 2 ^ ceilLog2 3 < 2 * 3 :=
  merge_score_formula.2.2.2.1 3 (by decide)

lemma resolveActiveDrop_log1 (s : State) :
    (resolveActiveDrop s).1.log = s.log := by
  obtain ⟨c, a, h⟩ := resolveActiveDrop_shape s
  rw [h]

lemma resolveActiveDrop_steps (s : State) :
    (resolveActiveDrop s).1.steps = s.steps := by
  obtain ⟨c, a, h⟩ := resolveActiveDrop_shape s
  rw [h]

lemma sampleNextTileState_log1 (t : State) :
    (sampleNextTileState t).2.log = t.log := by
  obtain ⟨rng', h⟩ := sampleNextTileState_shape t
  rw [h]

lemma sampleNextTileState_steps (t : State) :
    (sampleNextTileState t).2.steps = t.steps := by
  obtain ⟨rng', h⟩ := sampleNextTileState_shape t
  rw [h]

/-- `MergeFall.apply_action` either leaves the log and step counter unchanged
(rejected action, game over, or the immediate full-column game-over, none of
which are logged) or appends exactly one entry with step index `steps + 1`. -/
lemma mf_applyAction_log (s : State) (a : String) (p : Snap × State)
    (hap : applyAction s a = some p) :
    (p.2.log = s.log ∧ p.2.steps = s.steps) ∨
    (p.2.log = s.log ++ [{step := s.steps + 1, action := Game2048.normalize a,
                          score := p.1.score, game_over := p.1.game_over,
                          board := p.1.board}] ∧
     p.2.steps = s.steps + 1) := by
  rcases hgo : s.game_over with _ | _
  · rcases hp : parseActionToCol (Game2048.normalize a) with _ | col
    · rw [mf_applyAction_badparse_eq hgo hp] at hap
      obtain rfl := Option.some.inj hap
      exact Or.inl ⟨rfl, rfl⟩
    · by_cases hcol : col < s.width
      · by_cases hfull : cell s.cols 0 col ≠ 0
        · have heq := (game_over_iff_overflow.1 s a col hgo hp hcol).1 hfull
          rw [heq] at hap
          obtain rfl := Option.some.inj hap
          exact Or.inl ⟨rfl, rfl⟩
        · push_neg at hfull
          rcases hd : dropActive s col s.next_tile with _ | ⟨r, s2⟩
          · -- a failing scan would mean apply_action raised, contradicting hap
            unfold applyAction at hap
            rw [if_neg (by rw [hgo]; simp)] at hap
            dsimp only at hap
            rw [hp] at hap
            dsimp only at hap
            rw [if_pos hcol, if_neg (by rw [hfull]; simp), hd] at hap
            cases hap
          · have hs2 := dropActive_some hd
            subst hs2
            unfold applyAction at hap
            rw [if_neg (by rw [hgo]; simp)] at hap
            dsimp only at hap
            rw [hp] at hap
            dsimp only at hap
            rw [if_pos hcol, if_neg (by rw [hfull]; simp), hd] at hap
            simp only [overflowRow_score] at hap
            set S3 : State :=
              {width := s.width, height := s.height,
               cols := setCell s.cols r col (-(s.next_tile : Int)),
               score := s.score, game_over := s.game_over,
               next_tile := s.next_tile, active_pos := some (r, col),
               rng := s.rng, log := s.log, steps := s.steps} with hS3
            rcases hov : overflowRow (resolveActiveDrop S3).1 with _ | _
            · rw [hov] at hap
              simp only [Bool.false_eq_true, if_false] at hap
              rw [show (resolveActiveDrop S3).1.game_over = false from by
                rw [resolveActiveDrop_game_over, hS3]; exact hgo] at hap
              simp only [Bool.false_eq_true, if_false] at hap
              obtain rfl := Option.some.inj hap
              right
              unfold recordLog
              dsimp only
              rw [sampleNextTileState_log1, sampleNextTileState_steps]
              dsimp only
              rw [resolveActiveDrop_log1, resolveActiveDrop_steps]
              exact ⟨rfl, rfl⟩
            · rw [hov] at hap
              simp only [if_true] at hap
              obtain rfl := Option.some.inj hap
              right
              unfold recordLog
              dsimp only
              rw [resolveActiveDrop_log1, resolveActiveDrop_steps]
              exact ⟨rfl, rfl⟩
      · rw [mf_applyAction_outofrange_eq hgo hp hcol] at hap
        obtain rfl := Option.some.inj hap
        exact Or.inl ⟨rfl, rfl⟩
  · rw [mf_applyAction_over_eq hgo a] at hap
    obtain rfl := Option.some.inj hap
    exact Or.inl ⟨rfl, rfl⟩

lemma mf_reset_log (s : State) :
    (reset s).2.log = [] ∧ (reset s).2.steps = 0 := by
  unfold reset
  dsimp only
  rw [sampleNextTileState_log1, sampleNextTileState_steps]
  exact ⟨rfl, rfl⟩

lemma mf_reachable_logInv {s : State} (h : Reachable s) : LogInv s := by
  induction h with
  | reset s =>
    obtain ⟨hl, hs⟩ := mf_reset_log s
    unfold LogInv
    rw [hl, hs]
    exact stepsOKList_nil _
  | step a h1 h2 ih =>
    rcases mf_applyAction_log _ _ _ h2 with ⟨hl, hs⟩ | ⟨hl, hs⟩
    · unfold LogInv
      rw [hl, hs]
      exact ih
    · unfold LogInv
      rw [hl, hs]
      exact stepsOKList_append _ ih rfl

end MergeFall

/-- **C9, counterexample.** After one logged action the in-memory log holds
one entry, and a subsequent `reset()` (which calls `BaseGame._reset_log`)
removes it: the log is not append-only across resets. -/
theorem reset_clears_log :
    ((Game2048.applyAction (Game2048.reset Game2048.blankState
        [(0, false), (5, true)]).2.1 "left" [(3, false)]).2.1.log.length = 1) ∧
    ((Game2048.reset (Game2048.applyAction (Game2048.reset Game2048.blankState
        [(0, false), (5, true)]).2.1 "left" [(3, false)]).2.1
        [(0, false), (1, false)]).2.1.log = []) := by
  decide

/-- **C9 (amended).** Between resets a session's log is append-only with step
indices exactly 1..n: every reachable state of either engine satisfies the
numbering invariant, each `apply_action` either leaves the log unchanged
(rejected/failed actions are never logged) or appends exactly one entry
numbered `steps + 1`, and `reset` clears the log and counter. -/
theorem log_append_only_between_resets :
    (∀ s : Game2048.State, Game2048.Reachable s →
      stepsOKList (fun e => e.step) s.log s.steps) ∧
    (∀ (s : Game2048.State) (a : String) (rng : Game2048.Rng),
      ((Game2048.applyAction s a rng).2.1.log = s.log ∧
       (Game2048.applyAction s a rng).2.1.steps = s.steps) ∨
      (∃ sn : Game2048.Snap, (Game2048.applyAction s a rng).2.1.log =
          s.log ++ [{step := s.steps + 1, action := Game2048.normalize a,
                     score := sn.score, game_over := sn.game_over,
                     board := sn.board}] ∧
        (Game2048.applyAction s a rng).2.1.steps = s.steps + 1)) ∧
    (∀ (s : Game2048.State) (rng : Game2048.Rng),
      (Game2048.reset s rng).2.1.log = [] ∧ (Game2048.reset s rng).2.1.steps = 0) ∧
    (∀ s : MergeFall.State, MergeFall.Reachable s →
      stepsOKList (fun e => e.step) s.log s.steps) ∧
    (∀ (s : MergeFall.State) (a : String) (p : MergeFall.Snap × MergeFall.State),
      MergeFall.applyAction s a = some p →
      (p.2.log = s.log ∧ p.2.steps = s.steps) ∨
      (p.2.log = s.log ++ [{step := s.steps + 1, action := Game2048.normalize a,
                            score := p.1.score, game_over := p.1.game_over,
                            board := p.1.board}] ∧
       p.2.steps = s.steps + 1)) ∧
    (∀ s : MergeFall.State,
      (MergeFall.reset s).2.log = [] ∧ (MergeFall.reset s).2.steps = 0) := by
  refine ⟨fun s h => Game2048.Reachable_logInv h, Game2048.applyAction_log,
    fun s rng => ?_, fun s h => MergeFall.mf_reachable_logInv h,
    MergeFall.mf_applyAction_log, MergeFall.mf_reset_log⟩
  rw [Game2048.reset_eq]
  exact ⟨rfl, rfl⟩

/-- Witness for the amended C9: the numbering invariant at a concrete state
reached by one logged action. -/
theorem log_append_only_between_resets_witness :
    stepsOKList (fun e => e.step)
      (Game2048.applyAction (Game2048.reset Game2048.blankState
        [(0, false), (5, true)]).2.1 "left" [(3, false)]).2.1.log
      (Game2048.applyAction (Game2048.reset Game2048.blankState
        [(0, false), (5, true)]).2.1 "left" [(3, false)]).2.1.steps :=
  log_append_only_between_resets.1 _
    (Game2048.Reachable.step "left" [(3, false)]
      (Game2048.Reachable.reset Game2048.blankState [(0, false), (5, true)]))

/-- **C1 (amended).** Both engines normalize the raw action
(`action.strip().lower()`) before deciding whether to reject it, and the
rejection test is the engine's own check, not membership of the raw string in
`valid_actions()`: Game2048 rejects when the game is over or the *normalized*
action is not in `valid_actions()`; MergeFall rejects when the game is over or
the normalized action parses to no in-range column.  In all of these cases
`apply_action` is a pure no-op returning the current snapshot with an error
field added. -/
theorem rejected_actions_are_noops :
    (∀ (s : Game2048.State) (a : String) (rng : Game2048.Rng),
      Game2048.Reachable s →
      (s.game_over = true ∨ Game2048.normalize a ∉ (Game2048.validActions s).1) →
      ∃ err, Game2048.applyAction s a rng =
        ({(Game2048.getState s).1 with error := some err}, s, rng)) ∧
    (∀ (s : MergeFall.State) (a : String),
      (s.game_over = true ∨
        ∀ c, MergeFall.parseActionToCol (Game2048.normalize a) = some c →
          s.width ≤ c) →
      ∃ err, MergeFall.applyAction s a =
        some ({MergeFall.getState s with error := some err}, s)) := by
  constructor
  · intro s a rng hreach hrej
    have hInv := Game2048.Reachable_inv hreach
    rcases hgo : s.game_over with _ | _
    · have hmem : Game2048.normalize a ∉ (Game2048.validActions s).1 := by
        rcases hrej with h | h
        · rw [hgo] at h
          cases h
        · exact h
      have hmem' : Game2048.normalize a ∉
          Game2048.directions.filter (fun d => (Game2048.canMove d s).1) := by
        intro hin
        apply hmem
        rw [Game2048.validActions_of_playing hgo]
        exact hin
      refine ⟨"Invalid action: " ++ Game2048.normalize a, ?_⟩
      rw [Game2048.applyAction_rejected_eq hInv hgo hmem' rng]
      simp only [Game2048.getState, Game2048.validActions_of_playing hgo]
    · refine ⟨"Game is already over.", ?_⟩
      rw [Game2048.applyAction_over_eq hgo a rng]
      simp only [Game2048.getState, Game2048.validActions_of_over hgo]
  · intro s a hrej
    rcases hgo : s.game_over with _ | _
    · rcases hp : MergeFall.parseActionToCol (Game2048.normalize a) with _ | c
      · exact ⟨_, MergeFall.mf_applyAction_badparse_eq hgo hp⟩
      · have hge : s.width ≤ c := by
          rcases hrej with h | h
          · rw [hgo] at h
            cases h
          · exact h c hp
        exact ⟨_, MergeFall.mf_applyAction_outofrange_eq hgo hp (by omega)⟩
    · exact ⟨_, MergeFall.mf_applyAction_over_eq hgo a⟩

/-- Witness for the amended C1: a rejected Game2048 action ("fly") on a fresh
session and an out-of-range MergeFall action ("drop 9"). -/
theorem rejected_actions_are_noops_witness :
    (∃ err, Game2048.applyAction
        (Game2048.reset Game2048.blankState [(0, false), (5, true)]).2.1 "fly"
        [(3, false)] =
      ({(Game2048.getState
          (Game2048.reset Game2048.blankState [(0, false), (5, true)]).2.1).1 with
         error := some err},
       (Game2048.reset Game2048.blankState [(0, false), (5, true)]).2.1,
       [(3, false)])) ∧
    (∃ err, MergeFall.applyAction MergeFall.demoStack "drop 9" =
      some ({MergeFall.getState MergeFall.demoStack with error := some err},
            MergeFall.demoStack)) := by
  constructor
  · exact rejected_actions_are_noops.1 _ "fly" [(3, false)]
      (Game2048.Reachable.reset Game2048.blankState [(0, false), (5, true)])
      (Or.inr (by decide))
  · refine rejected_actions_are_noops.2 MergeFall.demoStack "drop 9" (Or.inr ?_)
    intro c hc
    have h9 : MergeFall.parseActionToCol (Game2048.normalize "drop 9") = some 9 := by
      decide
    rw [h9] at hc
    obtain rfl := Option.some.inj hc
    decide

namespace Sessions

/-- **C8, counterexample.** Game2048 sessions share the process-global
`random` module: whether session 1 has consumed draws changes the tiles
session 2's `reset` spawns, refuting per-session PRNG privacy for Game2048. -/
theorem global_rng_leaks_across_2048_sessions :
    (resetG2 w0).g2.board ≠ (resetG2 (resetG1 w0)).g2.board := by decide

lemma applyM1_m1 (a : String) (w : World) :
    (applyM1 a w).m1 = match MergeFall.applyAction w.m1 a with
                       | some p => p.2
                       | none => w.m1 := by
  unfold applyM1
  rcases MergeFall.applyAction w.m1 a with _ | p
  · rfl
  · rfl

/-- **C8 (amended).** MergeFall's generator is private per session: no
operation on any other session (Game2048 or MergeFall) changes a MergeFall
session's state or the draws it observes, and a MergeFall session's behavior
is a function of its own state (actions and private PRNG) alone.  Game2048
spawns, by contrast, consume the shared global stream (see the
counterexample). -/
theorem mergefall_rng_private :
    (∀ (w : World) (a b : String),
      (applyG1 a w).m1 = w.m1 ∧ (applyG2 a w).m1 = w.m1 ∧
      (resetG1 w).m1 = w.m1 ∧ (applyM2 a w).m1 = w.m1 ∧
      (applyM1 b (applyG1 a w)).m1 = (applyM1 b w).m1 ∧
      (applyM1 b (applyM2 a w)).m1 = (applyM1 b w).m1) ∧
    (∀ (w w' : World) (b : String), w.m1 = w'.m1 →
      (applyM1 b w).m1 = (applyM1 b w').m1) := by
  constructor
  · intro w a b
    refine ⟨rfl, rfl, rfl, ?_, ?_, ?_⟩
    · unfold applyM2
      rcases MergeFall.applyAction w.m2 a with _ | p
      · rfl
      · rfl
    · rw [applyM1_m1, applyM1_m1]
      rfl
    · rw [applyM1_m1, applyM1_m1]
      have hm : (applyM2 a w).m1 = w.m1 := by
        unfold applyM2
        rcases MergeFall.applyAction w.m2 a with _ | p
        · rfl
        · rfl
      rw [hm]
  · intro w w' b h
    rw [applyM1_m1, applyM1_m1, h]

/-- Witness for the amended C8 on the concrete world `w0`: a Game2048 action
in between does not change a MergeFall session's outcome, and two worlds
agreeing on the MergeFall session agree on its next state. -/
theorem mergefall_rng_private_witness :
    (applyM1 "drop 2" (applyG1 "up" w0)).m1 = (applyM1 "drop 2" w0).m1 ∧
    (applyM1 "drop 0" w0).m1 = (applyM1 "drop 0" (applyG2 "left" w0)).m1 :=
  ⟨(mergefall_rng_private.1 w0 "up" "drop 2").2.2.2.2.1,
   mergefall_rng_private.2 w0 (applyG2 "left" w0) "drop 0" rfl⟩

end Sessions

end EvoPlay
